import Mathlib

/-!
# Signal delivery of SUSTechOS (`os/signal/ksignal.c`)

A shallow embedding of `siginit`, `siginit_fork`, `siginit_exec`, `do_signal`,
`sys_sigaction`, `sys_sigreturn` and `sys_sigkill`.

* Machine words (`uint64`, `sigset_t`) are natural numbers below `WORD = 2^64`;
  every arithmetic step of the C code is followed by an explicit `% WORD`.
* The headers `ksignal.h`, `defs.h`, `proc.h` and `trap.h` are not part of the
  sources. The constants they declare are fields of `Config`; the collaborators
  they declare (`copy_to_user`, `copy_from_user`, `setkilled`, `add_task`) are
  modelled from the specification, section 6.
* `acquire` and `release` are not modelled: the embedding is sequential.
-/

set_option maxRecDepth 100000

namespace KSignal

/-! ## Machine words -/

/-- Number of values of a 64-bit word. -/
def WORD : Nat := 2 ^ 64

/-- Addition of `uint64`. -/
def add64 (a b : Nat) : Nat := (a + b) % WORD

/-- Subtraction of `uint64`. -/
def sub64 (a b : Nat) : Nat := (a + (WORD - b % WORD)) % WORD

/-- The C operator `~` on a 64-bit word. -/
def not64 (x : Nat) : Nat := WORD - (x % WORD + 1)

/-! ## Constants of the absent headers -/

/-- The value of `sizeof(struct ucontext)`: 33 words of 8 bytes, see
`encodeUcontext`. -/
def UCONTEXT_SIZE : Nat := 264

/-- Constants that `ksignal.c` uses and the absent headers declare. -/
structure Config where
  /-- Lowest signal number. -/
  SIGMIN : Nat
  /-- Highest signal number; the tables have `SIGMAX + 1` entries. -/
  SIGMAX : Nat
  /-- The kill signal. -/
  SIGKILL : Nat
  /-- The stop signal. -/
  SIGSTOP : Nat
  /-- Handler address that stands for the default action. -/
  SIG_DFL : Nat
  /-- Handler address that stands for ignoring the signal. -/
  SIG_IGN : Nat
  /-- Error number of an invalid argument. -/
  EINVAL : Nat
  /-- Error number of a memory fault. -/
  EFAULT : Nat
  /-- The value of `sizeof(siginfo_t)`. -/
  SIGINFO_SIZE : Nat

/-- What the code relies on about the constants: the range is not empty, every
signal number is a bit of the 64-bit `sigset_t`, the two reserved handler
addresses differ (specification, section 6), and a signal frame is smaller
than the address space. -/
def Config.wf (c : Config) : Prop :=
  c.SIGMIN ≤ c.SIGMAX ∧ c.SIGMAX < 64 ∧ c.SIG_DFL ≠ c.SIG_IGN ∧ c.SIGINFO_SIZE + UCONTEXT_SIZE < WORD

instance (c : Config) : Decidable c.wf := by
  unfold Config.wf; infer_instance

/-- Modelled from the spec: the macro `sigmask` of the absent `ksignal.h`; a
signal set is a bitset in which bit `i` stands for signal `i` (section 3). -/
def sigmask (signo : Nat) : Nat := (1 <<< signo) % WORD

/-! ## Data model -/

/-- One disposition entry, `sigaction_t`. -/
structure sigaction_t where
  sa_sigaction : Nat
  sa_mask : Nat
  sa_restorer : Nat

/-- The fields of `struct trapframe` that `ksignal.c` reads and writes. -/
structure trapframe where
  epc : Nat
  ra : Nat
  sp : Nat
  gp : Nat
  tp : Nat
  t0 : Nat
  t1 : Nat
  t2 : Nat
  s0 : Nat
  s1 : Nat
  a0 : Nat
  a1 : Nat
  a2 : Nat
  a3 : Nat
  a4 : Nat
  a5 : Nat
  a6 : Nat
  a7 : Nat
  s2 : Nat
  s3 : Nat
  s4 : Nat
  s5 : Nat
  s6 : Nat
  s7 : Nat
  s8 : Nat
  s9 : Nat
  s10 : Nat
  s11 : Nat
  t3 : Nat
  t4 : Nat
  t5 : Nat
  t6 : Nat

/-- The record `struct ucontext`: `uc_sigmask`, then `uc_mcontext` with `epc`
and `regs[31]`. -/
structure ucontext where
  uc_sigmask : Nat
  epc : Nat
  regs : List Nat

/-- The record `struct ksignal`. A payload `siginfo_t` is kept as its bytes. -/
structure ksignal where
  sa : Nat → sigaction_t
  siginfos : Nat → List Nat
  sigmask : Nat
  sigpending : Nat

/-- User address space: the byte stored at every address, and which addresses
are mapped for the process. -/
structure UserMem where
  bytes : Nat → Nat
  mapped : Nat → Bool

/-- Scheduler state of a process; the code names `SLEEPING` and `RUNNABLE`. -/
inductive procstate where
  | SLEEPING
  | RUNNABLE
  | OTHER (tag : Nat)
  deriving DecidableEq

/-- The fields of `struct proc` that `ksignal.c` uses. -/
structure proc where
  pid : Int
  state : procstate
  signal : ksignal
  trapframe : trapframe
  mm : UserMem

/-- A call into a collaborator that is outside the module. -/
inductive Call where
  | setkilled (pid : Int) (status : Int)
  | add_task (pid : Int)
  deriving DecidableEq

/-! ## User-memory copies -/

/-- Every address of `[addr, addr + len)` is a 64-bit address that is mapped. -/
def rangeMapped (mm : UserMem) (addr len : Nat) : Bool :=
  (List.range len).all (fun i => decide (addr + i < WORD) && mm.mapped (addr + i))

/-- Store `src` at `dst`, byte by byte. -/
def writeBytes (bytes : Nat → Nat) (dst : Nat) (src : List Nat) : Nat → Nat :=
  fun a => if dst ≤ a ∧ a < dst + src.length then src.getD (a - dst) 0 else bytes a

/-- The `len` bytes stored from `src` on. -/
def readBytes (bytes : Nat → Nat) (src len : Nat) : List Nat :=
  (List.range len).map (fun i => bytes (src + i))

/-- Modelled from the spec: `copy_to_user` of the absent `defs.h`; it reports a
fault (`none`) when an address of the destination is invalid and never succeeds
in part (section 6). -/
def copy_to_user (mm : UserMem) (dst : Nat) (src : List Nat) : Option UserMem :=
  if rangeMapped mm dst src.length then
    some { mm with bytes := writeBytes mm.bytes dst src }
  else none

/-- Modelled from the spec: `copy_from_user` of the absent `defs.h`; it reports
a fault (`none`) when an address of the source is invalid (section 6). -/
def copy_from_user (mm : UserMem) (src len : Nat) : Option (List Nat) :=
  if rangeMapped mm src len then some (readBytes mm.bytes src len) else none

/-! ## Layout of the records in user memory -/

/-- The eight bytes of a 64-bit word, least significant first. -/
def encodeWord (w : Nat) : List Nat :=
  (List.range 8).map (fun i => w / 256 ^ i % 256)

/-- The word whose bytes, least significant first, are `bs`. -/
def decodeWord (bs : List Nat) : Nat :=
  bs.foldr (fun b acc => b + 256 * acc) 0

/-- The word number `k` of a byte string. -/
def wordAt (bs : List Nat) (k : Nat) : Nat :=
  decodeWord ((bs.drop (8 * k)).take 8)

/-- The value of `sizeof(sigaction_t)`: 3 words. -/
def SIGACTION_SIZE : Nat := 24

/-- The words of a `struct ucontext` in layout order. -/
def ucontextWords (uc : ucontext) : List Nat :=
  uc.uc_sigmask :: uc.epc :: (List.range 31).map (fun i => uc.regs.getD i 0)

/-- Modelled from the spec: the layout of `struct ucontext`, declared in the
absent `ksignal.h`: the blocked mask, the program counter and the 31 registers
as consecutive 64-bit words. -/
def encodeUcontext (uc : ucontext) : List Nat :=
  (ucontextWords uc).flatMap encodeWord

/-- Inverse of `encodeUcontext`. -/
def decodeUcontext (bs : List Nat) : ucontext :=
  { uc_sigmask := wordAt bs 0
    epc := wordAt bs 1
    regs := (List.range 31).map (fun i => wordAt bs (i + 2)) }

/-- Modelled from the spec: the layout of `sigaction_t`, declared in the absent
`ksignal.h`: handler address, extra mask and trampoline as consecutive 64-bit
words. -/
def encodeSigaction (sa : sigaction_t) : List Nat :=
  [sa.sa_sigaction, sa.sa_mask, sa.sa_restorer].flatMap encodeWord

/-- Inverse of `encodeSigaction`. -/
def decodeSigaction (bs : List Nat) : sigaction_t :=
  { sa_sigaction := wordAt bs 0, sa_mask := wordAt bs 1, sa_restorer := wordAt bs 2 }

/-- The `sizeof(siginfo_t)` bytes of a payload. -/
def siginfoBytes (c : Config) (si : List Nat) : List Nat :=
  (List.range c.SIGINFO_SIZE).map (fun i => si.getD i 0)

/-! ## Lifecycle hooks -/

/-- Result of an entry point that works on the current process: the value
returned, the process afterwards and the collaborator calls made, in order. -/
structure Outcome where
  ret : Int
  p : proc
  calls : List Call

/-- The loop `for (int i = lo; i <= hi; i++) s = body i s`. -/
def forRange {α : Type} (lo hi : Nat) (body : Nat → α → α) (s : α) : α :=
  (List.range' lo (hi + 1 - lo)).foldl (fun acc i => body i acc) s

/-- Replace entry `i` of a table. -/
def setEntry {β : Type} (tbl : Nat → β) (i : Nat) (v : β) : Nat → β :=
  fun j => if j = i then v else tbl j

/-- The function `siginit`: zero the record, then set every disposition of the
range to the default action. -/
def siginit (c : Config) (p : proc) : Outcome :=
  let zeroed : ksignal :=
    { sa := fun _ => ⟨0, 0, 0⟩
      siginfos := fun _ => List.replicate c.SIGINFO_SIZE 0
      sigmask := 0
      sigpending := 0 }
  let sa := forRange c.SIGMIN c.SIGMAX
    (fun i tbl => setEntry tbl i ⟨c.SIG_DFL, 0, 0⟩) zeroed.sa
  ⟨0, { p with signal := { zeroed with sa := sa, sigmask := 0, sigpending := 0 } }, []⟩

/-- The function `siginit_fork`; it returns the child, the parent is only read.
The `memcpy` copies the `SIGMAX + 1` entries of the table. -/
def siginit_fork (c : Config) (parent child : proc) : Outcome :=
  let sa := fun i => if i ≤ c.SIGMAX then parent.signal.sa i else child.signal.sa i
  ⟨0, { child with signal :=
          { child.signal with sa := sa, sigmask := parent.signal.sigmask, sigpending := 0 } },
    []⟩

/-- The function `siginit_exec`. -/
def siginit_exec (c : Config) (p : proc) : Outcome :=
  let mask := p.signal.sigmask
  let pending := p.signal.sigpending
  let sa := forRange c.SIGMIN c.SIGMAX
    (fun i tbl => if (tbl i).sa_sigaction ≠ c.SIG_IGN then setEntry tbl i ⟨c.SIG_DFL, 0, 0⟩
                  else tbl) p.signal.sa
  ⟨0, { p with signal := { p.signal with sa := sa, sigmask := mask, sigpending := pending } }, []⟩

/-! ## Delivery -/

/-- The search loop of `do_signal` from `signo` on; `fuel` bounds the number of
iterations. -/
def find_signo_loop (SIGMAX pending : Nat) : Nat → Nat → Nat
  | 0, signo => signo
  | fuel + 1, signo =>
    if signo ≤ SIGMAX then
      if pending &&& sigmask signo ≠ 0 then signo
      else find_signo_loop SIGMAX pending fuel (signo + 1)
    else signo

/-- The search loop `for (signo = SIGMIN; signo <= SIGMAX; signo++)` of
`do_signal`: the value of `signo` after the loop. At most
`SIGMAX + 1 - SIGMIN` iterations run. -/
def find_signo (c : Config) (pending : Nat) : Nat :=
  find_signo_loop c.SIGMAX pending (c.SIGMAX + 1 - c.SIGMIN) c.SIGMIN

/-- The local `uc` that `do_signal` fills from the trap frame. -/
def save_context (p : proc) : ucontext :=
  let tf := p.trapframe
  { uc_sigmask := p.signal.sigmask
    epc := tf.epc
    regs := [tf.ra, tf.sp, tf.gp, tf.tp, tf.t0, tf.t1, tf.t2, tf.s0, tf.s1,
             tf.a0, tf.a1, tf.a2, tf.a3, tf.a4, tf.a5, tf.a6, tf.a7,
             tf.s2, tf.s3, tf.s4, tf.s5, tf.s6, tf.s7, tf.s8, tf.s9, tf.s10, tf.s11,
             tf.t3, tf.t4, tf.t5, tf.t6] }

/-- The function `do_signal` on the current process `p`. The result is `none`
when the loop leaves `signo = SIGMAX + 1`, an index outside `sa[SIGMAX + 1]`. -/
def do_signal (c : Config) (p : proc) : Option Outcome :=
  let tf := p.trapframe
  let pending := p.signal.sigpending &&& not64 p.signal.sigmask
  if pending = 0 then some ⟨0, p, []⟩
  else
    let signo := find_signo c pending
    if c.SIGMAX < signo then none
    else
      let sig1 := { p.signal with sigpending := p.signal.sigpending &&& not64 (sigmask signo) }
      let sa := p.signal.sa signo
      if sa.sa_sigaction = c.SIG_IGN then
        some ⟨0, { p with signal := sig1 }, []⟩
      else if sa.sa_sigaction = c.SIG_DFL then
        some ⟨0, { p with signal := sig1 }, [Call.setkilled p.pid (-10 - (signo : Int))]⟩
      else
        let uc := save_context p
        let tf1 := { tf with
          a0 := signo % WORD
          a1 := sub64 tf.sp c.SIGINFO_SIZE
          a2 := sub64 (sub64 tf.sp c.SIGINFO_SIZE) UCONTEXT_SIZE }
        let tf2 := { tf1 with sp := sub64 tf1.sp (add64 c.SIGINFO_SIZE UCONTEXT_SIZE) }
        match copy_to_user p.mm tf2.sp (encodeUcontext uc) with
        | none => some ⟨-(c.EFAULT : Int), { p with signal := sig1, trapframe := tf2 }, []⟩
        | some mm1 =>
          match copy_to_user mm1 (add64 tf2.sp UCONTEXT_SIZE)
              (siginfoBytes c (p.signal.siginfos signo)) with
          | none =>
            some ⟨-(c.EFAULT : Int), { p with signal := sig1, trapframe := tf2, mm := mm1 }, []⟩
          | some mm2 =>
            let tf3 := { tf2 with ra := sa.sa_restorer }
            let sig2 := { sig1 with sigmask := sig1.sigmask ||| (sa.sa_mask ||| sigmask signo) }
            let tf4 := { tf3 with epc := sa.sa_sigaction }
            some ⟨0, { p with signal := sig2, trapframe := tf4, mm := mm2 }, []⟩

/-! ## System calls -/

/-- The function `sys_sigaction`; a null pointer is the address `0`. -/
def sys_sigaction (c : Config) (p : proc) (signo : Int) (act oldact : Nat) : Outcome :=
  if signo < c.SIGMIN ∨ signo > c.SIGMAX then ⟨-(c.EINVAL : Int), p, []⟩
  else if signo = c.SIGKILL ∨ signo = c.SIGSTOP then ⟨-(c.EINVAL : Int), p, []⟩
  else
    let n := signo.toNat
    let afterOld : Option UserMem :=
      if oldact ≠ 0 then copy_to_user p.mm oldact (encodeSigaction (p.signal.sa n))
      else some p.mm
    match afterOld with
    | none => ⟨-(c.EFAULT : Int), p, []⟩
    | some mm1 =>
      let p1 := { p with mm := mm1 }
      if act ≠ 0 then
        match copy_from_user mm1 act SIGACTION_SIZE with
        | none => ⟨-(c.EFAULT : Int), p1, []⟩
        | some bs =>
          ⟨0, { p1 with signal :=
                  { p1.signal with sa := setEntry p1.signal.sa n (decodeSigaction bs) } }, []⟩
      else ⟨0, p1, []⟩

/-- The function `sys_sigreturn`. -/
def sys_sigreturn (c : Config) (p : proc) : Outcome :=
  let tf := p.trapframe
  match copy_from_user p.mm tf.sp UCONTEXT_SIZE with
  | none => ⟨-(c.EFAULT : Int), p, []⟩
  | some bs =>
    let uc := decodeUcontext bs
    let r := fun i => uc.regs.getD i 0
    let tf1 : trapframe := { tf with
      epc := uc.epc
      ra := r 0, sp := r 1, gp := r 2, tp := r 3, t0 := r 4, t1 := r 5, t2 := r 6
      s0 := r 7, s1 := r 8
      a0 := r 9, a1 := r 10, a2 := r 11, a3 := r 12, a4 := r 13, a5 := r 14
      a6 := r 15, a7 := r 16
      s2 := r 17, s3 := r 18, s4 := r 19, s5 := r 20, s6 := r 21, s7 := r 22
      s8 := r 23, s9 := r 24, s10 := r 25, s11 := r 26
      t3 := r 27, t4 := r 28, t5 := r 29, t6 := r 30 }
    let sig := { p.signal with sigmask := uc.uc_sigmask }
    let tf2 := { tf1 with sp := add64 tf1.sp (add64 UCONTEXT_SIZE c.SIGINFO_SIZE) }
    ⟨0, { p with signal := sig, trapframe := tf2 }, []⟩

/-- The functions `sys_sigprocmask` and `sys_sigpending`: they return `0`. -/
def sys_sigprocmask (p : proc) : Outcome := ⟨0, p, []⟩

/-- Result of an entry point that works on the process table. -/
structure PoolOutcome where
  ret : Int
  pool : List proc
  calls : List Call

/-- What `sys_sigkill` does to the process whose `pid` matches. -/
def raise_on (c : Config) (p : proc) (signo : Nat) : proc × List Call :=
  let p1 := { p with signal :=
    { p.signal with sigpending := p.signal.sigpending ||| sigmask signo } }
  let calls1 := if signo = c.SIGKILL then [Call.setkilled p.pid (-10 - (signo : Int))] else []
  if p1.state = procstate.SLEEPING then
    ({ p1 with state := procstate.RUNNABLE }, calls1 ++ [Call.add_task p.pid])
  else (p1, calls1)

/-- The scan `for (int i = 0; i < NPROC; i++)` of `sys_sigkill` over the
entries of `pool` that are left. -/
def sigkill_scan (c : Config) (pid : Int) (signo : Nat) : List proc → Option (List proc × List Call)
  | [] => none
  | p :: rest =>
    if p.pid = pid then
      some ((raise_on c p signo).1 :: rest, (raise_on c p signo).2)
    else
      match sigkill_scan c pid signo rest with
      | none => none
      | some (rest1, calls) => some (p :: rest1, calls)

/-- The function `sys_sigkill` on the process table `pool`; the argument `code`
is not used by the code. -/
def sys_sigkill (c : Config) (pool : List proc) (pid signo : Int) (_code : Int) : PoolOutcome :=
  if signo < c.SIGMIN ∨ signo > c.SIGMAX then ⟨-(c.EINVAL : Int), pool, []⟩
  else
    match sigkill_scan c pid signo.toNat pool with
    | some (pool1, calls) => ⟨0, pool1, calls⟩
    | none => ⟨-(c.EINVAL : Int), pool, []⟩

/-! ## Notions used by the statements -/

/-- The set `pending AND NOT blocked` that `do_signal` computes first. -/
def deliverable (p : proc) : Nat :=
  p.signal.sigpending &&& not64 p.signal.sigmask

/-- Every member of the set is a signal number of `[SIGMIN, SIGMAX]`. -/
def inRange (c : Config) (set : Nat) : Prop :=
  ∀ i, set.testBit i = true → c.SIGMIN ≤ i ∧ i ≤ c.SIGMAX

/-- The signal that `do_signal` acts on: the value of `signo` after its loop. -/
def selected (c : Config) (p : proc) : Nat :=
  find_signo c (deliverable p)

/-- The stack pointer that `do_signal` leaves when it builds a frame. -/
def frame_sp (c : Config) (p : proc) : Nat :=
  sub64 p.trapframe.sp (add64 c.SIGINFO_SIZE UCONTEXT_SIZE)

/-- Both `copy_to_user` calls of `do_signal` succeed for the signal `s`. -/
def frameWritesOk (c : Config) (p : proc) (s : Nat) : Bool :=
  match copy_to_user p.mm (frame_sp c p) (encodeUcontext (save_context p)) with
  | none => false
  | some mm1 =>
    (copy_to_user mm1 (add64 (frame_sp c p) UCONTEXT_SIZE)
      (siginfoBytes c (p.signal.siginfos s))).isSome

/-- The disposition of `s` is a custom handler: neither ignore nor default. -/
def customHandler (c : Config) (p : proc) (s : Nat) : Prop :=
  (p.signal.sa s).sa_sigaction ≠ c.SIG_IGN ∧ (p.signal.sa s).sa_sigaction ≠ c.SIG_DFL

instance (c : Config) (p : proc) (s : Nat) : Decidable (customHandler c p s) := by
  unfold customHandler; infer_instance

/-- Every register of the trap frame and the blocked mask are 64-bit values. -/
def wordSized (p : proc) : Prop :=
  p.signal.sigmask < WORD ∧
  (∀ r, r ∈ p.trapframe.epc :: (save_context p).regs → r < WORD)

instance (p : proc) : Decidable (wordSized p) := by
  unfold wordSized; infer_instance

/-- The members of a signal set in increasing order. -/
def members (set : Nat) : List Nat :=
  (List.range 64).filter (fun i => set.testBit i)

/-- The signal that a call of `do_signal` acts on, if it acts on one: none
when nothing is deliverable, otherwise the value of `signo` after the loop. -/
def acted (c : Config) (p : proc) : Option Nat :=
  if deliverable p = 0 then none else some (selected c p)

/-- Run `do_signal` `k` times in a row; the result lists what each call acted
on, in the order of the calls, and gives the process afterwards. -/
def deliver_all (c : Config) : Nat → proc → Option (List (Option Nat) × proc)
  | 0, p => some ([], p)
  | k + 1, p =>
    match do_signal c p with
    | none => none
    | some o =>
      match deliver_all c k o.p with
      | none => none
      | some (rest, q) => some (acted c p :: rest, q)

/-- The process that `sys_sigkill` raises the signal on: the first entry of the
table with the given `pid`. -/
def target (pool : List proc) (pid : Int) : Option proc :=
  pool.find? (fun q => decide (q.pid = pid))

/-- Both user-memory copies of `sys_sigaction` succeed when `oldact` and `act`
are given for the signal `n`. -/
def actionCopiesOk (p : proc) (n act oldact : Nat) : Bool :=
  match copy_to_user p.mm oldact (encodeSigaction (p.signal.sa n)) with
  | none => false
  | some mm1 => (copy_from_user mm1 act SIGACTION_SIZE).isSome

/-- The three fields of a disposition entry are 64-bit values. -/
def sigactionWordSized (sa : sigaction_t) : Prop :=
  sa.sa_sigaction < WORD ∧ sa.sa_mask < WORD ∧ sa.sa_restorer < WORD

instance (sa : sigaction_t) : Decidable (sigactionWordSized sa) := by
  unfold sigactionWordSized; infer_instance

/-- The two privileged signals are signal numbers of `[SIGMIN, SIGMAX]`
(specification, section 3). -/
def Config.wfPrivileged (c : Config) : Prop :=
  (c.SIGMIN ≤ c.SIGKILL ∧ c.SIGKILL ≤ c.SIGMAX) ∧ (c.SIGMIN ≤ c.SIGSTOP ∧ c.SIGSTOP ≤ c.SIGMAX)

instance (c : Config) : Decidable c.wfPrivileged := by
  unfold Config.wfPrivileged; infer_instance

/-- The call is a call of `setkilled`. -/
def isSetkilled : Call → Bool
  | Call.setkilled _ _ => true
  | Call.add_task _ => false

/-- The call is a call of `add_task`. -/
def isAddTask : Call → Bool
  | Call.setkilled _ _ => false
  | Call.add_task _ => true

/-- Successive `sys_sigkill` calls for the same `pid`, one for each pair of a
signal number and a code: the values returned, the table afterwards and the
collaborator calls made, in order. -/
def sigkill_seq (c : Config) (pid : Int) : List (Nat × Int) → List proc →
    List Int × List proc × List Call
  | [], pool => ([], pool, [])
  | (signo, code) :: more, pool =>
    let r := sys_sigkill c pool pid signo code
    let rest := sigkill_seq c pid more r.pool
    (r.ret :: rest.1, rest.2.1, r.calls ++ rest.2.2)

/-- The processes reachable from `siginit` by the entry points of the module.
Between kernel entries the user program and the rest of the kernel change the
trap frame, user memory and the scheduler state, not the signal record
(`env`). A `do_signal` step is one that stays inside the tables. -/
inductive Reachable (c : Config) : proc → Prop where
  | init (p : proc) : Reachable c (siginit c p).p
  | env (p : proc) (tf : trapframe) (mm : UserMem) (st : procstate) :
      Reachable c p → Reachable c { p with trapframe := tf, mm := mm, state := st }
  | sigaction (p : proc) (signo : Int) (act oldact : Nat) :
      Reachable c p → Reachable c (sys_sigaction c p signo act oldact).p
  | deliver (p : proc) (o : Outcome) :
      Reachable c p → do_signal c p = some o → Reachable c o.p
  | sigreturn (p : proc) : Reachable c p → Reachable c (sys_sigreturn c p).p
  | sigkill (pool : List proc) (pid signo code : Int) (q : proc) :
      (∀ p, p ∈ pool → Reachable c p) →
      q ∈ (sys_sigkill c pool pid signo code).pool → Reachable c q
  | exec (p : proc) : Reachable c p → Reachable c (siginit_exec c p).p
  | fork (parent child : proc) :
      Reachable c parent → Reachable c (siginit_fork c parent child).p

/-! ## Concrete inputs -/

/-- One admissible choice of the constants. -/
def cfg0 : Config :=
  { SIGMIN := 1, SIGMAX := 10, SIGKILL := 4, SIGSTOP := 7, SIG_DFL := 0, SIG_IGN := 1,
    EINVAL := 22, EFAULT := 14, SIGINFO_SIZE := 24 }

/-- A trap frame with a different value in every register. -/
def tf0 : trapframe :=
  ⟨100, 1, 4096, 3, 4, 5, 6, 7, 8, 9, 10, 11, 12, 13, 14, 15, 16, 17, 18, 19, 20, 21, 22, 23,
    24, 25, 26, 27, 28, 29, 30, 31⟩

/-- An address space whose first two pages are mapped. -/
def mm0 : UserMem := ⟨fun _ => 0, fun a => decide (a < 8192)⟩

/-- An address space with nothing mapped. -/
def mmNone : UserMem := ⟨fun _ => 0, fun _ => false⟩

/-- Signal state: signal 2 has a handler, signal 3 is ignored, the others have
the default action; signal 5 is blocked; signals 2, 5 and 6 are pending. -/
def sig0 : ksignal :=
  { sa := fun i => if i = 2 then ⟨5000, 8, 6000⟩ else if i = 3 then ⟨1, 0, 0⟩ else ⟨0, 0, 0⟩
    siginfos := fun i => List.replicate 24 i
    sigmask := 32
    sigpending := 100 }

/-- A process about to receive signal 2 in its handler. -/
def p0 : proc := ⟨7, procstate.RUNNABLE, sig0, tf0, mm0⟩

/-- The same process with an unmapped stack. -/
def pFault : proc := { p0 with mm := mmNone }

/-- A process whose deliverable signals 3 and 6 are ignored or default. -/
def pPlain : proc := { p0 with signal := { sig0 with sigpending := 104 } }

/-- A process whose only deliverable signal, 6, has the default action. -/
def pDefault : proc := { p0 with signal := { sig0 with sigpending := 96 } }

/-- A process whose only pending signal, 5, is blocked. -/
def pBlocked : proc := { p0 with signal := { sig0 with sigpending := 32 } }

/-- A sleeping process with another `pid`. -/
def pSleep : proc := { p0 with pid := 9, state := procstate.SLEEPING }

/-- The sleeping process with the kill signal 4 blocked. -/
def pSleepBlocked : proc := { pSleep with signal := { sig0 with sigmask := 16 } }

/-- The process `p0` with a new disposition for signal 3 stored at the user
address 512: handler 9000, extra mask 4, trampoline 9100. -/
def pAct : proc :=
  { p0 with mm := { mm0 with bytes := writeBytes mm0.bytes 512 (encodeSigaction ⟨9000, 4, 9100⟩) } }

/-- The process `pAct` after `siginit` and a `sys_sigaction` that installs, for
signal 3, the disposition stored at address 512. -/
def pInstalled : proc := (sys_sigaction cfg0 (siginit cfg0 pAct).p 3 512 0).p

/-- The process `p0` right after `siginit`. -/
def pInit : proc := (siginit cfg0 p0).p

/-- The process `pInit` after signal 3 was raised on it. -/
def pRaised : proc := (raise_on cfg0 pInit 3).1

/-- A process with a handler for signal 2 whose entries for the ignored signals
3 and 5 carry an extra mask and a trampoline. -/
def pHandlers : proc :=
  { p0 with signal := { sig0 with
      sa := fun i => if i = 2 then ⟨5000, 8, 6000⟩
                     else if i = 3 ∨ i = 5 then ⟨1, 12, 7000⟩ else ⟨0, 0, 0⟩ } }

/-! ## Bit sets -/

theorem sigmask_eq {n : Nat} (h : n < 64) : sigmask n = 2 ^ n := by
  unfold sigmask WORD
  rw [Nat.one_shiftLeft]
  exact Nat.mod_eq_of_lt (Nat.pow_lt_pow_right (by decide) h)

theorem testBit_not64 (x i : Nat) :
    (not64 x).testBit i = (decide (i < 64) && !x.testBit i) := by
  unfold not64 WORD
  rw [Nat.testBit_two_pow_sub_succ (Nat.mod_lt _ (by decide)), Nat.testBit_mod_two_pow]
  by_cases h : i < 64 <;> simp [h]

theorem and_sigmask_ne_zero {x n : Nat} (h : n < 64) :
    x &&& sigmask n ≠ 0 ↔ x.testBit n = true := by
  rw [sigmask_eq h]
  constructor
  · intro hne
    obtain ⟨i, hi⟩ := Nat.ne_zero_implies_bit_true hne
    rw [Nat.testBit_and, Nat.testBit_two_pow] at hi
    simp only [Bool.and_eq_true, decide_eq_true_eq] at hi
    rw [hi.2]; exact hi.1
  · intro hb hz
    have : (x &&& 2 ^ n).testBit n = true := by
      rw [Nat.testBit_and, Nat.testBit_two_pow_self, hb]; rfl
    rw [hz] at this
    simp at this

theorem testBit_clear {x s : Nat} (hs : s < 64) (i : Nat) :
    (x &&& not64 (sigmask s)).testBit i
      = (decide (i ≠ s) && (decide (i < 64) && x.testBit i)) := by
  rw [Nat.testBit_and, testBit_not64, sigmask_eq hs, Nat.testBit_two_pow]
  have e : decide (i ≠ s) = !decide (s = i) := by
    by_cases h : s = i
    · subst h; simp
    · have h' : ¬ i = s := fun e => h e.symm
      simp [h, h']
  rw [e]
  cases x.testBit i <;> cases decide (i < 64) <;> cases decide (s = i) <;> rfl

theorem testBit_deliverable (p : proc) (i : Nat) :
    (deliverable p).testBit i
      = (p.signal.sigpending.testBit i && (decide (i < 64) && !p.signal.sigmask.testBit i)) := by
  unfold deliverable
  rw [Nat.testBit_and, testBit_not64]

/-! ## The search loop -/

theorem find_signo_loop_spec (SIGMAX pending : Nat) (hmax : SIGMAX < 64) :
    ∀ (fuel signo : Nat), signo + fuel = SIGMAX + 1 →
      signo ≤ find_signo_loop SIGMAX pending fuel signo ∧
      find_signo_loop SIGMAX pending fuel signo ≤ SIGMAX + 1 ∧
      (∀ j, signo ≤ j → j < find_signo_loop SIGMAX pending fuel signo →
        pending.testBit j = false) ∧
      (find_signo_loop SIGMAX pending fuel signo ≤ SIGMAX →
        pending.testBit (find_signo_loop SIGMAX pending fuel signo) = true) := by
  intro fuel
  induction fuel with
  | zero =>
    intro signo h
    simp only [find_signo_loop]
    refine ⟨Nat.le_refl _, by omega, fun j h1 h2 => by omega, fun h3 => by omega⟩
  | succ fuel ih =>
    intro signo h
    have hle : signo ≤ SIGMAX := by omega
    simp only [find_signo_loop, if_pos hle]
    by_cases hb : pending &&& sigmask signo ≠ 0
    · rw [if_pos hb]
      refine ⟨Nat.le_refl _, by omega, fun j h1 h2 => by omega, fun _ => ?_⟩
      exact (and_sigmask_ne_zero (by omega)).1 hb
    · rw [if_neg hb]
      obtain ⟨h1, h2, h3, h4⟩ := ih (signo + 1) (by omega)
      refine ⟨by omega, h2, fun j hj1 hj2 => ?_, h4⟩
      by_cases hj : j = signo
      · subst hj
        by_contra hne
        exact hb ((and_sigmask_ne_zero (by omega)).2 (by simpa using hne))
      · exact h3 j (by omega) hj2

theorem find_signo_spec (c : Config) (hc : c.wf) (pending : Nat) :
    c.SIGMIN ≤ find_signo c pending ∧ find_signo c pending ≤ c.SIGMAX + 1 ∧
    (∀ j, c.SIGMIN ≤ j → j < find_signo c pending → pending.testBit j = false) ∧
    (find_signo c pending ≤ c.SIGMAX → pending.testBit (find_signo c pending) = true) := by
  obtain ⟨h1, h2, _, _⟩ := hc
  exact find_signo_loop_spec c.SIGMAX pending h2 (c.SIGMAX + 1 - c.SIGMIN) c.SIGMIN (by omega)

/-- With a deliverable signal in range, the loop stops at the least member. -/
theorem selected_least (c : Config) (hc : c.wf) (p : proc)
    (hr : inRange c p.signal.sigpending) (hd : deliverable p ≠ 0) :
    c.SIGMIN ≤ selected c p ∧ selected c p ≤ c.SIGMAX ∧
    (deliverable p).testBit (selected c p) = true ∧
    (∀ i, (deliverable p).testBit i = true → selected c p ≤ i) := by
  obtain ⟨h1, h2, h3, h4⟩ := find_signo_spec c hc (deliverable p)
  have hsub : ∀ i, (deliverable p).testBit i = true → c.SIGMIN ≤ i ∧ i ≤ c.SIGMAX := by
    intro i hi
    rw [testBit_deliverable] at hi
    simp only [Bool.and_eq_true] at hi
    exact hr i hi.1
  have hleast : ∀ i, (deliverable p).testBit i = true → selected c p ≤ i := by
    intro i hi
    by_contra hlt
    have := h3 i (hsub i hi).1 (by unfold selected at hlt; omega)
    rw [hi] at this
    exact Bool.noConfusion this
  obtain ⟨i, hi⟩ := Nat.ne_zero_implies_bit_true hd
  have hmax : selected c p ≤ c.SIGMAX := Nat.le_trans (hleast i hi) (hsub i hi).2
  exact ⟨h1, hmax, h4 hmax, hleast⟩

/-! ## User memory -/

theorem rangeMapped_iff (mm : UserMem) (addr len : Nat) :
    rangeMapped mm addr len = true ↔
      ∀ i, i < len → addr + i < WORD ∧ mm.mapped (addr + i) = true := by
  simp [rangeMapped, List.all_eq_true]

theorem copy_to_user_some {mm mm1 : UserMem} {dst : Nat} {src : List Nat}
    (h : copy_to_user mm dst src = some mm1) :
    rangeMapped mm dst src.length = true ∧ mm1.mapped = mm.mapped ∧
      mm1.bytes = writeBytes mm.bytes dst src := by
  unfold copy_to_user at h
  by_cases hm : rangeMapped mm dst src.length = true
  · rw [if_pos hm] at h
    cases h
    exact ⟨hm, rfl, rfl⟩
  · rw [if_neg hm] at h
    exact Option.noConfusion h

theorem copy_to_user_of_mapped {mm : UserMem} {dst : Nat} {src : List Nat}
    (h : rangeMapped mm dst src.length = true) :
    copy_to_user mm dst src = some { mm with bytes := writeBytes mm.bytes dst src } := by
  unfold copy_to_user
  rw [if_pos h]

theorem writeBytes_outside (bytes : Nat → Nat) (dst : Nat) (src : List Nat) (a : Nat)
    (h : ¬ (dst ≤ a ∧ a < dst + src.length)) : writeBytes bytes dst src a = bytes a := by
  unfold writeBytes
  rw [if_neg h]

theorem readBytes_writeBytes_same (bytes : Nat → Nat) (dst : Nat) (src : List Nat) :
    readBytes (writeBytes bytes dst src) dst src.length = src := by
  apply List.ext_getElem
  · simp [readBytes]
  · intro i h1 h2
    simp only [readBytes, List.getElem_map, List.getElem_range, writeBytes]
    rw [if_pos ⟨Nat.le_add_right _ _, by omega⟩]
    simp [List.getD_eq_getElem?_getD, h2]

theorem readBytes_writeBytes_disjoint (bytes : Nat → Nat) (dst : Nat) (src : List Nat)
    (a n : Nat) (h : a + n ≤ dst ∨ dst + src.length ≤ a) :
    readBytes (writeBytes bytes dst src) a n = readBytes bytes a n := by
  unfold readBytes
  apply List.map_congr_left
  intro i hi
  have hi2 : i < n := List.mem_range.1 hi
  exact writeBytes_outside bytes dst src (a + i) (by omega)

/-! ## Encoding of records -/

theorem length_encodeWord (w : Nat) : (encodeWord w).length = 8 := by
  simp [encodeWord]

theorem decodeWord_encodeWord (w : Nat) : decodeWord (encodeWord w) = w % WORD := by
  simp only [encodeWord, decodeWord, WORD, List.range, List.range.loop, List.map, List.foldr]
  omega

theorem length_flatMap_encodeWord (ws : List Nat) :
    (ws.flatMap encodeWord).length = 8 * ws.length := by
  induction ws with
  | nil => rfl
  | cons w ws ih =>
    rw [List.flatMap_cons, List.length_append, ih, length_encodeWord, List.length_cons]
    omega

theorem wordAt_flatMap (ws : List Nat) :
    ∀ k, k < ws.length → wordAt (ws.flatMap encodeWord) k = ws.getD k 0 % WORD := by
  induction ws with
  | nil => intro k hk; exact absurd hk (Nat.not_lt_zero _)
  | cons w ws ih =>
    intro k hk
    cases k with
    | zero =>
      unfold wordAt
      rw [List.flatMap_cons, Nat.mul_zero, List.drop_zero,
        List.take_append_of_le_length (by rw [length_encodeWord]),
        List.take_of_length_le (by rw [length_encodeWord]), decodeWord_encodeWord]
      rfl
    | succ k =>
      have hk2 : k < ws.length := Nat.lt_of_succ_lt_succ hk
      have := ih k hk2
      unfold wordAt at this ⊢
      rw [List.flatMap_cons, List.drop_append_eq_append_drop, length_encodeWord,
        List.drop_of_length_le (by rw [length_encodeWord]; omega), List.nil_append,
        show 8 * (k + 1) - 8 = 8 * k by omega, this]
      rfl

theorem length_encodeUcontext (uc : ucontext) : (encodeUcontext uc).length = UCONTEXT_SIZE := by
  unfold encodeUcontext
  rw [length_flatMap_encodeWord]
  simp [ucontextWords, UCONTEXT_SIZE]

theorem length_siginfoBytes (c : Config) (si : List Nat) :
    (siginfoBytes c si).length = c.SIGINFO_SIZE := by
  simp [siginfoBytes]

theorem length_ucontextWords (uc : ucontext) : (ucontextWords uc).length = 33 := by
  simp [ucontextWords]

theorem decode_encode_sigmask (uc : ucontext) :
    (decodeUcontext (encodeUcontext uc)).uc_sigmask = uc.uc_sigmask % WORD := by
  show wordAt ((ucontextWords uc).flatMap encodeWord) 0 = _
  rw [wordAt_flatMap _ 0 (by rw [length_ucontextWords]; decide)]
  rfl

theorem decode_encode_epc (uc : ucontext) :
    (decodeUcontext (encodeUcontext uc)).epc = uc.epc % WORD := by
  show wordAt ((ucontextWords uc).flatMap encodeWord) 1 = _
  rw [wordAt_flatMap _ 1 (by rw [length_ucontextWords]; decide)]
  rfl

theorem decode_encode_regs (uc : ucontext) (i : Nat) (hi : i < 31) :
    (decodeUcontext (encodeUcontext uc)).regs.getD i 0 = uc.regs.getD i 0 % WORD := by
  have h1 : (decodeUcontext (encodeUcontext uc)).regs.getD i 0
      = wordAt ((ucontextWords uc).flatMap encodeWord) (i + 2) := by
    simp [decodeUcontext, encodeUcontext, List.getD_eq_getElem?_getD, List.getElem?_map,
      List.getElem?_range hi]
  rw [h1, wordAt_flatMap _ (i + 2) (by rw [length_ucontextWords]; omega)]
  simp [ucontextWords, List.getD_eq_getElem?_getD, List.getElem?_map, List.getElem?_range hi]

theorem frame_a1 (sp si : Nat) :
    sub64 sp si = add64 (sub64 sp (add64 si UCONTEXT_SIZE)) UCONTEXT_SIZE := by
  unfold sub64 add64 UCONTEXT_SIZE WORD
  omega

theorem frame_a2 (sp si : Nat) :
    sub64 (sub64 sp si) UCONTEXT_SIZE = sub64 sp (add64 si UCONTEXT_SIZE) := by
  unfold sub64 add64 UCONTEXT_SIZE WORD
  omega

theorem frame_top (sp si : Nat) :
    add64 (add64 (sub64 sp (add64 si UCONTEXT_SIZE)) UCONTEXT_SIZE) si = sp % WORD := by
  unfold sub64 add64 UCONTEXT_SIZE WORD
  omega

theorem frameWritesOk_copies {c : Config} {p : proc} {s : Nat}
    (hw : frameWritesOk c p s = true) :
    ∃ mm1 mm2,
      copy_to_user p.mm (frame_sp c p) (encodeUcontext (save_context p)) = some mm1 ∧
      copy_to_user mm1 (add64 (frame_sp c p) UCONTEXT_SIZE)
        (siginfoBytes c (p.signal.siginfos s)) = some mm2 := by
  unfold frameWritesOk at hw
  cases h1 : copy_to_user p.mm (frame_sp c p) (encodeUcontext (save_context p)) with
  | none => rw [h1] at hw; exact Bool.noConfusion hw
  | some mm1 =>
    rw [h1] at hw
    simp only at hw
    cases h2 : copy_to_user mm1 (add64 (frame_sp c p) UCONTEXT_SIZE)
        (siginfoBytes c (p.signal.siginfos s)) with
    | none => rw [h2] at hw; exact Bool.noConfusion hw
    | some mm2 => exact ⟨mm1, mm2, rfl, h2⟩

/-! ## The branches of `do_signal` -/

theorem do_signal_ignore (c : Config) (p : proc) (hd : deliverable p ≠ 0)
    (hs : selected c p ≤ c.SIGMAX)
    (hi : (p.signal.sa (selected c p)).sa_sigaction = c.SIG_IGN) :
    do_signal c p = some ⟨0, { p with signal := { p.signal with
      sigpending := p.signal.sigpending &&& not64 (sigmask (selected c p)) } }, []⟩ := by
  unfold selected deliverable at *
  simp only [do_signal, if_neg hd, if_neg (Nat.not_lt.2 hs), if_pos hi]

theorem do_signal_default (c : Config) (p : proc) (hd : deliverable p ≠ 0)
    (hs : selected c p ≤ c.SIGMAX)
    (hi : (p.signal.sa (selected c p)).sa_sigaction ≠ c.SIG_IGN)
    (hf : (p.signal.sa (selected c p)).sa_sigaction = c.SIG_DFL) :
    do_signal c p = some ⟨0, { p with signal := { p.signal with
      sigpending := p.signal.sigpending &&& not64 (sigmask (selected c p)) } },
      [Call.setkilled p.pid (-10 - (selected c p : Int))]⟩ := by
  unfold selected deliverable at *
  simp only [do_signal, if_neg hd, if_neg (Nat.not_lt.2 hs), if_neg hi, if_pos hf]

theorem do_signal_handler_ok (c : Config) (p : proc) (hd : deliverable p ≠ 0)
    (hs : selected c p ≤ c.SIGMAX) (hh : customHandler c p (selected c p))
    (mm1 mm2 : UserMem)
    (h1 : copy_to_user p.mm (frame_sp c p) (encodeUcontext (save_context p)) = some mm1)
    (h2 : copy_to_user mm1 (add64 (frame_sp c p) UCONTEXT_SIZE)
      (siginfoBytes c (p.signal.siginfos (selected c p))) = some mm2) :
    do_signal c p = some ⟨0, { p with
      signal := { p.signal with
        sigpending := p.signal.sigpending &&& not64 (sigmask (selected c p))
        sigmask := p.signal.sigmask |||
          ((p.signal.sa (selected c p)).sa_mask ||| sigmask (selected c p)) }
      trapframe := { p.trapframe with
        a0 := selected c p % WORD
        a1 := sub64 p.trapframe.sp c.SIGINFO_SIZE
        a2 := sub64 (sub64 p.trapframe.sp c.SIGINFO_SIZE) UCONTEXT_SIZE
        sp := frame_sp c p
        ra := (p.signal.sa (selected c p)).sa_restorer
        epc := (p.signal.sa (selected c p)).sa_sigaction }
      mm := mm2 }, []⟩ := by
  unfold selected deliverable frame_sp customHandler at *
  simp only [do_signal, if_neg hd, if_neg (Nat.not_lt.2 hs), if_neg hh.1, if_neg hh.2, h1, h2]

theorem do_signal_handler_fault (c : Config) (p : proc) (hd : deliverable p ≠ 0)
    (hs : selected c p ≤ c.SIGMAX) (hh : customHandler c p (selected c p))
    (hw : frameWritesOk c p (selected c p) = false) :
    ∃ mm1, (mm1 = p.mm ∨
        copy_to_user p.mm (frame_sp c p) (encodeUcontext (save_context p)) = some mm1) ∧
      do_signal c p = some ⟨-(c.EFAULT : Int), { p with
        signal := { p.signal with
          sigpending := p.signal.sigpending &&& not64 (sigmask (selected c p)) }
        trapframe := { p.trapframe with
          a0 := selected c p % WORD
          a1 := sub64 p.trapframe.sp c.SIGINFO_SIZE
          a2 := sub64 (sub64 p.trapframe.sp c.SIGINFO_SIZE) UCONTEXT_SIZE
          sp := frame_sp c p }
        mm := mm1 }, []⟩ := by
  unfold frameWritesOk at hw
  cases h1 : copy_to_user p.mm (frame_sp c p) (encodeUcontext (save_context p)) with
  | none =>
    refine ⟨p.mm, Or.inl rfl, ?_⟩
    unfold selected deliverable frame_sp customHandler at *
    simp only [do_signal, if_neg hd, if_neg (Nat.not_lt.2 hs), if_neg hh.1, if_neg hh.2, h1]
  | some mm1 =>
    rw [h1] at hw
    simp only at hw
    cases h2 : copy_to_user mm1 (add64 (frame_sp c p) UCONTEXT_SIZE)
        (siginfoBytes c (p.signal.siginfos (selected c p))) with
    | some mm2 => rw [h2] at hw; exact Bool.noConfusion hw
    | none =>
      refine ⟨mm1, Or.inr rfl, ?_⟩
      unfold selected deliverable frame_sp customHandler at *
      simp only [do_signal, if_neg hd, if_neg (Nat.not_lt.2 hs), if_neg hh.1, if_neg hh.2, h1, h2]

theorem selected_lt_word (c : Config) (hc : c.wf) (p : proc) (hs : selected c p ≤ c.SIGMAX) :
    selected c p % WORD = selected c p := by
  obtain ⟨_, h2, _, _⟩ := hc
  apply Nat.mod_eq_of_lt
  unfold WORD
  omega

/-- C3: when the selected signal has a custom handler and both frame writes
succeed, `do_signal` returns 0 with `a0` the signal number, `ra` the trampoline
of the disposition, `epc` its handler, `sp` lowered by
`sizeof(struct ucontext) + sizeof(siginfo_t)`, every other register unchanged;
`a2` and `a1` are the addresses that the two `copy_to_user` calls wrote the
saved context and the payload to. -/
theorem do_signal_handler_entry (c : Config) (p : proc) (hc : c.wf)
    (hd : deliverable p ≠ 0) (hs : selected c p ≤ c.SIGMAX)
    (hh : customHandler c p (selected c p))
    (hw : frameWritesOk c p (selected c p) = true) :
    ∃ o, do_signal c p = some o ∧ o.ret = 0 ∧
      o.p.trapframe = { p.trapframe with
        a0 := selected c p
        a1 := sub64 p.trapframe.sp c.SIGINFO_SIZE
        a2 := sub64 p.trapframe.sp (UCONTEXT_SIZE + c.SIGINFO_SIZE)
        ra := (p.signal.sa (selected c p)).sa_restorer
        epc := (p.signal.sa (selected c p)).sa_sigaction
        sp := sub64 p.trapframe.sp (UCONTEXT_SIZE + c.SIGINFO_SIZE) } ∧
      ∃ mm1, copy_to_user p.mm o.p.trapframe.a2 (encodeUcontext (save_context p)) = some mm1 ∧
        copy_to_user mm1 o.p.trapframe.a1 (siginfoBytes c (p.signal.siginfos (selected c p)))
          = some o.p.mm := by
  obtain ⟨mm1, mm2, h1, h2⟩ := frameWritesOk_copies hw
  have hsp : frame_sp c p = sub64 p.trapframe.sp (UCONTEXT_SIZE + c.SIGINFO_SIZE) := by
    unfold frame_sp sub64 add64 UCONTEXT_SIZE WORD; omega
  have ha2 : sub64 (sub64 p.trapframe.sp c.SIGINFO_SIZE) UCONTEXT_SIZE
      = sub64 p.trapframe.sp (UCONTEXT_SIZE + c.SIGINFO_SIZE) := by
    unfold sub64 UCONTEXT_SIZE WORD; omega
  have ha1 : add64 (frame_sp c p) UCONTEXT_SIZE = sub64 p.trapframe.sp c.SIGINFO_SIZE := by
    unfold frame_sp; exact (frame_a1 _ _).symm
  refine ⟨_, do_signal_handler_ok c p hd hs hh mm1 mm2 h1 h2, rfl, ?_, mm1, ?_, ?_⟩
  · simp only [selected_lt_word c hc p hs, ha2, hsp]
  · simp only [ha2, ← hsp]; exact h1
  · simp only [← ha1]; exact h2

/-- Witness of C3 at the process `p0`. -/
theorem do_signal_handler_entry_witness :
    (cfg0.wf ∧ deliverable p0 ≠ 0 ∧ selected cfg0 p0 ≤ cfg0.SIGMAX ∧
      customHandler cfg0 p0 (selected cfg0 p0) ∧
      frameWritesOk cfg0 p0 (selected cfg0 p0) = true) ∧
    ∃ o, do_signal cfg0 p0 = some o ∧ o.ret = 0 ∧
      o.p.trapframe = { p0.trapframe with
        a0 := selected cfg0 p0
        a1 := sub64 p0.trapframe.sp cfg0.SIGINFO_SIZE
        a2 := sub64 p0.trapframe.sp (UCONTEXT_SIZE + cfg0.SIGINFO_SIZE)
        ra := (p0.signal.sa (selected cfg0 p0)).sa_restorer
        epc := (p0.signal.sa (selected cfg0 p0)).sa_sigaction
        sp := sub64 p0.trapframe.sp (UCONTEXT_SIZE + cfg0.SIGINFO_SIZE) } ∧
      ∃ mm1, copy_to_user p0.mm o.p.trapframe.a2 (encodeUcontext (save_context p0)) = some mm1 ∧
        copy_to_user mm1 o.p.trapframe.a1
          (siginfoBytes cfg0 (p0.signal.siginfos (selected cfg0 p0))) = some o.p.mm :=
  ⟨⟨by decide, by decide, by decide, by decide, by decide⟩,
    do_signal_handler_entry cfg0 p0 (by decide) (by decide) (by decide) (by decide) (by decide)⟩

theorem decodeUcontext_encodeUcontext (uc : ucontext) (hl : uc.regs.length = 31)
    (hm : uc.uc_sigmask < WORD) (he : uc.epc < WORD) (hr : ∀ r, r ∈ uc.regs → r < WORD) :
    decodeUcontext (encodeUcontext uc) = uc := by
  have h1 := decode_encode_sigmask uc
  have h2 := decode_encode_epc uc
  rw [Nat.mod_eq_of_lt hm] at h1
  rw [Nat.mod_eq_of_lt he] at h2
  have h3 : (decodeUcontext (encodeUcontext uc)).regs = uc.regs := by
    apply List.ext_getElem
    · simp [decodeUcontext, hl]
    · intro i hi1 hi2
      have hi : i < 31 := by rw [← hl]; exact hi2
      have := decode_encode_regs uc i hi
      rw [List.getD_eq_getElem?_getD, List.getD_eq_getElem?_getD,
        List.getElem?_eq_getElem hi1, List.getElem?_eq_getElem hi2] at this
      simp only [Option.getD_some] at this
      rw [this]
      exact Nat.mod_eq_of_lt (hr _ (List.getElem_mem hi2))
  cases hdec : decodeUcontext (encodeUcontext uc) with
  | mk m e r =>
    rw [hdec] at h1 h2 h3
    cases uc
    simp only at h1 h2 h3
    rw [h1, h2, h3]

/-- After both frame writes the saved context can be read back from the new
stack pointer. -/
theorem frame_context_readback (c : Config) (p : proc) (s : Nat) (mm1 mm2 : UserMem)
    (hc : c.wf)
    (h1 : copy_to_user p.mm (frame_sp c p) (encodeUcontext (save_context p)) = some mm1)
    (h2 : copy_to_user mm1 (add64 (frame_sp c p) UCONTEXT_SIZE)
      (siginfoBytes c (p.signal.siginfos s)) = some mm2) :
    rangeMapped mm2 (frame_sp c p) UCONTEXT_SIZE = true ∧
    readBytes mm2.bytes (frame_sp c p) UCONTEXT_SIZE = encodeUcontext (save_context p) := by
  obtain ⟨hm1, hmap1, hb1⟩ := copy_to_user_some h1
  obtain ⟨_, hmap2, hb2⟩ := copy_to_user_some h2
  obtain ⟨_, _, _, hsize⟩ := hc
  rw [length_encodeUcontext] at hm1
  have hfit : frame_sp c p + UCONTEXT_SIZE ≤ WORD := by
    have := ((rangeMapped_iff _ _ _).1 hm1 263 (by unfold UCONTEXT_SIZE; decide)).1
    unfold UCONTEXT_SIZE; omega
  have hdisj : frame_sp c p + UCONTEXT_SIZE ≤ add64 (frame_sp c p) UCONTEXT_SIZE ∨
      add64 (frame_sp c p) UCONTEXT_SIZE + c.SIGINFO_SIZE ≤ frame_sp c p := by
    unfold add64 UCONTEXT_SIZE WORD at *
    omega
  constructor
  · rw [rangeMapped_iff] at hm1 ⊢
    intro i hi
    rw [hmap2, hmap1]
    exact hm1 i hi
  · rw [hb2, readBytes_writeBytes_disjoint _ _ _ _ _
      (by rw [length_siginfoBytes]; exact hdisj), hb1]
    have := readBytes_writeBytes_same p.mm.bytes (frame_sp c p) (encodeUcontext (save_context p))
    rw [length_encodeUcontext] at this
    exact this

theorem siginfoBytes_getD (c : Config) (si : List Nat) (i : Nat) (h : i < c.SIGINFO_SIZE) :
    (siginfoBytes c si).getD i 0 = si.getD i 0 := by
  simp [siginfoBytes, List.getD_eq_getElem?_getD, List.getElem?_map, List.getElem?_range h]

theorem siginfoBytes_of_length (c : Config) (si : List Nat) (h : si.length = c.SIGINFO_SIZE) :
    siginfoBytes c si = si := by
  apply List.ext_getElem
  · rw [length_siginfoBytes, h]
  · intro i h1 h2
    have := siginfoBytes_getD c si i (by rw [← h]; exact h2)
    rw [List.getD_eq_getElem?_getD, List.getD_eq_getElem?_getD,
      List.getElem?_eq_getElem h1, List.getElem?_eq_getElem h2] at this
    simpa using this

theorem writeBytes_inside (bytes : Nat → Nat) (dst : Nat) (src : List Nat) (i : Nat)
    (h : i < src.length) : writeBytes bytes dst src (dst + i) = src.getD i 0 := by
  unfold writeBytes
  rw [if_pos ⟨Nat.le_add_right _ _, by omega⟩, Nat.add_sub_cancel_left]

/-- C4: when the selected signal has a custom handler and both frame writes
succeed, user memory holds the saved context (blocked mask, `epc` and the 31
registers as they were before the call) from the address in `a2` on and,
right behind it, the payload `siginfos[s]` from the address in `a1` on, byte
`i` of the payload at the address `a1 + i`; the region starts
`sizeof(struct ucontext) + sizeof(siginfo_t)` below the previous `sp`, modulo
`2^64`, and ends at it; every byte outside it and the mapping are unchanged. -/
theorem do_signal_frame_contents (c : Config) (p : proc) (hc : c.wf)
    (hd : deliverable p ≠ 0) (hs : selected c p ≤ c.SIGMAX)
    (hh : customHandler c p (selected c p))
    (hw : frameWritesOk c p (selected c p) = true) :
    ∃ o, do_signal c p = some o ∧
      o.p.trapframe.a2 = sub64 p.trapframe.sp (UCONTEXT_SIZE + c.SIGINFO_SIZE) ∧
      o.p.trapframe.a1 = add64 o.p.trapframe.a2 UCONTEXT_SIZE ∧
      add64 o.p.trapframe.a1 c.SIGINFO_SIZE = p.trapframe.sp % WORD ∧
      (UCONTEXT_SIZE + c.SIGINFO_SIZE ≤ p.trapframe.sp → p.trapframe.sp < WORD →
        o.p.trapframe.a2 = p.trapframe.sp - (UCONTEXT_SIZE + c.SIGINFO_SIZE) ∧
        o.p.trapframe.a1 = o.p.trapframe.a2 + UCONTEXT_SIZE ∧
        o.p.trapframe.a1 + c.SIGINFO_SIZE = p.trapframe.sp) ∧
      readBytes o.p.mm.bytes o.p.trapframe.a2 UCONTEXT_SIZE = encodeUcontext (save_context p) ∧
      (wordSized p →
        decodeUcontext (readBytes o.p.mm.bytes o.p.trapframe.a2 UCONTEXT_SIZE) =
          { uc_sigmask := p.signal.sigmask
            epc := p.trapframe.epc
            regs := [p.trapframe.ra, p.trapframe.sp, p.trapframe.gp, p.trapframe.tp,
              p.trapframe.t0, p.trapframe.t1, p.trapframe.t2, p.trapframe.s0, p.trapframe.s1,
              p.trapframe.a0, p.trapframe.a1, p.trapframe.a2, p.trapframe.a3, p.trapframe.a4,
              p.trapframe.a5, p.trapframe.a6, p.trapframe.a7, p.trapframe.s2, p.trapframe.s3,
              p.trapframe.s4, p.trapframe.s5, p.trapframe.s6, p.trapframe.s7, p.trapframe.s8,
              p.trapframe.s9, p.trapframe.s10, p.trapframe.s11, p.trapframe.t3, p.trapframe.t4,
              p.trapframe.t5, p.trapframe.t6] }) ∧
      readBytes o.p.mm.bytes o.p.trapframe.a1 c.SIGINFO_SIZE
        = siginfoBytes c (p.signal.siginfos (selected c p)) ∧
      (∀ a, ¬ (o.p.trapframe.a2 ≤ a ∧ a < o.p.trapframe.a2 + UCONTEXT_SIZE) →
        ¬ (o.p.trapframe.a1 ≤ a ∧ a < o.p.trapframe.a1 + c.SIGINFO_SIZE) →
        o.p.mm.bytes a = p.mm.bytes a) ∧
      o.p.mm.mapped = p.mm.mapped ∧
      (∀ i, i < c.SIGINFO_SIZE →
        o.p.mm.bytes (o.p.trapframe.a1 + i) = (p.signal.siginfos (selected c p)).getD i 0) ∧
      ((p.signal.siginfos (selected c p)).length = c.SIGINFO_SIZE →
        readBytes o.p.mm.bytes o.p.trapframe.a1 c.SIGINFO_SIZE
          = p.signal.siginfos (selected c p)) ∧
      o.p.trapframe.a2 < WORD ∧
      (o.p.trapframe.a2 + (UCONTEXT_SIZE + c.SIGINFO_SIZE)) % WORD = p.trapframe.sp % WORD := by
  obtain ⟨mm1, mm2, h1, h2⟩ := frameWritesOk_copies hw
  obtain ⟨hm1, hmap1, hb1⟩ := copy_to_user_some h1
  obtain ⟨_, hmap2, hb2⟩ := copy_to_user_some h2
  have hsp : frame_sp c p = sub64 p.trapframe.sp (UCONTEXT_SIZE + c.SIGINFO_SIZE) := by
    unfold frame_sp sub64 add64 UCONTEXT_SIZE WORD; omega
  have ha2 : sub64 (sub64 p.trapframe.sp c.SIGINFO_SIZE) UCONTEXT_SIZE = frame_sp c p := by
    unfold frame_sp; exact frame_a2 _ _
  have ha1 : sub64 p.trapframe.sp c.SIGINFO_SIZE = add64 (frame_sp c p) UCONTEXT_SIZE := by
    unfold frame_sp; exact frame_a1 _ _
  have htop : add64 (add64 (frame_sp c p) UCONTEXT_SIZE) c.SIGINFO_SIZE
      = p.trapframe.sp % WORD := by
    unfold frame_sp; exact frame_top _ _
  have hctx := (frame_context_readback c p _ mm1 mm2 hc h1 h2).2
  have hpay : ∀ i, i < c.SIGINFO_SIZE →
      mm2.bytes (sub64 p.trapframe.sp c.SIGINFO_SIZE + i)
        = (p.signal.siginfos (selected c p)).getD i 0 := by
    intro i hi
    rw [ha1, hb2, writeBytes_inside _ _ _ _ (by rw [length_siginfoBytes]; exact hi),
      siginfoBytes_getD c _ i hi]
  refine ⟨_, do_signal_handler_ok c p hd hs hh mm1 mm2 h1 h2, ?_, ?_, ?_, ?_, ?_, ?_, ?_, ?_,
    ?_, hpay, ?_, ?_, ?_⟩
  · show sub64 (sub64 p.trapframe.sp c.SIGINFO_SIZE) UCONTEXT_SIZE = _
    rw [ha2, hsp]
  · show sub64 p.trapframe.sp c.SIGINFO_SIZE
      = add64 (sub64 (sub64 p.trapframe.sp c.SIGINFO_SIZE) UCONTEXT_SIZE) UCONTEXT_SIZE
    rw [ha2, ha1]
  · show add64 (sub64 p.trapframe.sp c.SIGINFO_SIZE) c.SIGINFO_SIZE = _
    rw [ha1, htop]
  · intro hge hlt
    show sub64 (sub64 p.trapframe.sp c.SIGINFO_SIZE) UCONTEXT_SIZE = _ ∧
      sub64 p.trapframe.sp c.SIGINFO_SIZE
        = sub64 (sub64 p.trapframe.sp c.SIGINFO_SIZE) UCONTEXT_SIZE + UCONTEXT_SIZE ∧
      sub64 p.trapframe.sp c.SIGINFO_SIZE + c.SIGINFO_SIZE = _
    unfold sub64 UCONTEXT_SIZE WORD at *
    omega
  · show readBytes mm2.bytes (sub64 (sub64 p.trapframe.sp c.SIGINFO_SIZE) UCONTEXT_SIZE) _ = _
    rw [ha2, hctx]
  · intro hws
    show decodeUcontext (readBytes mm2.bytes
      (sub64 (sub64 p.trapframe.sp c.SIGINFO_SIZE) UCONTEXT_SIZE) _) = save_context p
    rw [ha2, hctx]
    exact decodeUcontext_encodeUcontext _ rfl hws.1 (hws.2 _ (List.mem_cons_self _ _))
      (fun r hr => hws.2 r (List.mem_cons_of_mem _ hr))
  · show readBytes mm2.bytes (sub64 p.trapframe.sp c.SIGINFO_SIZE) _ = _
    rw [ha1, hb2]
    have := readBytes_writeBytes_same mm1.bytes (add64 (frame_sp c p) UCONTEXT_SIZE)
      (siginfoBytes c (p.signal.siginfos (selected c p)))
    rw [length_siginfoBytes] at this
    exact this
  · intro a hn2 hn1
    show mm2.bytes a = p.mm.bytes a
    change ¬ (sub64 (sub64 p.trapframe.sp c.SIGINFO_SIZE) UCONTEXT_SIZE ≤ a ∧
      a < sub64 (sub64 p.trapframe.sp c.SIGINFO_SIZE) UCONTEXT_SIZE + UCONTEXT_SIZE) at hn2
    change ¬ (sub64 p.trapframe.sp c.SIGINFO_SIZE ≤ a ∧
      a < sub64 p.trapframe.sp c.SIGINFO_SIZE + c.SIGINFO_SIZE) at hn1
    rw [ha2] at hn2
    rw [ha1] at hn1
    rw [hb2, writeBytes_outside _ _ _ _ (by rw [length_siginfoBytes]; exact hn1), hb1,
      writeBytes_outside _ _ _ _ (by rw [length_encodeUcontext]; exact hn2)]
  · show mm2.mapped = p.mm.mapped
    rw [hmap2, hmap1]
  · intro hlen
    show readBytes mm2.bytes (sub64 p.trapframe.sp c.SIGINFO_SIZE) _ = _
    rw [ha1, hb2]
    have := readBytes_writeBytes_same mm1.bytes (add64 (frame_sp c p) UCONTEXT_SIZE)
      (siginfoBytes c (p.signal.siginfos (selected c p)))
    rw [length_siginfoBytes] at this
    exact this.trans (siginfoBytes_of_length c _ hlen)
  · show sub64 (sub64 p.trapframe.sp c.SIGINFO_SIZE) UCONTEXT_SIZE < WORD
    unfold sub64 WORD
    omega
  · show (sub64 (sub64 p.trapframe.sp c.SIGINFO_SIZE) UCONTEXT_SIZE
      + (UCONTEXT_SIZE + c.SIGINFO_SIZE)) % WORD = _
    unfold sub64 UCONTEXT_SIZE WORD
    omega

/-- Witness of C4 at the process `p0`, whose stack pointer is 4096: the context
lies at 3808, the payload of signal 2, 24 bytes of value 2, at 4072. -/
theorem do_signal_frame_contents_witness :
    (cfg0.wf ∧ deliverable p0 ≠ 0 ∧ selected cfg0 p0 ≤ cfg0.SIGMAX ∧
      customHandler cfg0 p0 (selected cfg0 p0) ∧
      frameWritesOk cfg0 p0 (selected cfg0 p0) = true ∧
      UCONTEXT_SIZE + cfg0.SIGINFO_SIZE ≤ p0.trapframe.sp ∧ p0.trapframe.sp < WORD ∧
      wordSized p0 ∧
      (p0.signal.siginfos (selected cfg0 p0)).length = cfg0.SIGINFO_SIZE) ∧
    (∃ o, do_signal cfg0 p0 = some o ∧
      o.p.trapframe.a2 = sub64 p0.trapframe.sp (UCONTEXT_SIZE + cfg0.SIGINFO_SIZE) ∧
      o.p.trapframe.a1 = add64 o.p.trapframe.a2 UCONTEXT_SIZE ∧
      add64 o.p.trapframe.a1 cfg0.SIGINFO_SIZE = p0.trapframe.sp % WORD ∧
      (UCONTEXT_SIZE + cfg0.SIGINFO_SIZE ≤ p0.trapframe.sp → p0.trapframe.sp < WORD →
        o.p.trapframe.a2 = p0.trapframe.sp - (UCONTEXT_SIZE + cfg0.SIGINFO_SIZE) ∧
        o.p.trapframe.a1 = o.p.trapframe.a2 + UCONTEXT_SIZE ∧
        o.p.trapframe.a1 + cfg0.SIGINFO_SIZE = p0.trapframe.sp) ∧
      readBytes o.p.mm.bytes o.p.trapframe.a2 UCONTEXT_SIZE = encodeUcontext (save_context p0) ∧
      (wordSized p0 →
        decodeUcontext (readBytes o.p.mm.bytes o.p.trapframe.a2 UCONTEXT_SIZE) =
          { uc_sigmask := p0.signal.sigmask
            epc := p0.trapframe.epc
            regs := [p0.trapframe.ra, p0.trapframe.sp, p0.trapframe.gp, p0.trapframe.tp,
              p0.trapframe.t0, p0.trapframe.t1, p0.trapframe.t2, p0.trapframe.s0, p0.trapframe.s1,
              p0.trapframe.a0, p0.trapframe.a1, p0.trapframe.a2, p0.trapframe.a3, p0.trapframe.a4,
              p0.trapframe.a5, p0.trapframe.a6, p0.trapframe.a7, p0.trapframe.s2, p0.trapframe.s3,
              p0.trapframe.s4, p0.trapframe.s5, p0.trapframe.s6, p0.trapframe.s7, p0.trapframe.s8,
              p0.trapframe.s9, p0.trapframe.s10, p0.trapframe.s11, p0.trapframe.t3, p0.trapframe.t4,
              p0.trapframe.t5, p0.trapframe.t6] }) ∧
      readBytes o.p.mm.bytes o.p.trapframe.a1 cfg0.SIGINFO_SIZE
        = siginfoBytes cfg0 (p0.signal.siginfos (selected cfg0 p0)) ∧
      (∀ a, ¬ (o.p.trapframe.a2 ≤ a ∧ a < o.p.trapframe.a2 + UCONTEXT_SIZE) →
        ¬ (o.p.trapframe.a1 ≤ a ∧ a < o.p.trapframe.a1 + cfg0.SIGINFO_SIZE) →
        o.p.mm.bytes a = p0.mm.bytes a) ∧
      o.p.mm.mapped = p0.mm.mapped ∧
      (∀ i, i < cfg0.SIGINFO_SIZE →
        o.p.mm.bytes (o.p.trapframe.a1 + i) = (p0.signal.siginfos (selected cfg0 p0)).getD i 0) ∧
      ((p0.signal.siginfos (selected cfg0 p0)).length = cfg0.SIGINFO_SIZE →
        readBytes o.p.mm.bytes o.p.trapframe.a1 cfg0.SIGINFO_SIZE
          = p0.signal.siginfos (selected cfg0 p0)) ∧
      o.p.trapframe.a2 < WORD ∧
      (o.p.trapframe.a2 + (UCONTEXT_SIZE + cfg0.SIGINFO_SIZE)) % WORD = p0.trapframe.sp % WORD) ∧
    ∃ o, do_signal cfg0 p0 = some o ∧
      o.p.trapframe.a2 = 3808 ∧ o.p.trapframe.a1 = 4072 ∧
      readBytes o.p.mm.bytes 4072 24 = List.replicate 24 2 ∧
      o.p.mm.bytes 4072 = 2 ∧ o.p.mm.bytes 4095 = 2 ∧
      decodeUcontext (readBytes o.p.mm.bytes 3808 264) =
        { uc_sigmask := 32
          epc := 100
          regs := [1, 4096, 3, 4, 5, 6, 7, 8, 9, 10, 11, 12, 13, 14, 15, 16, 17, 18, 19, 20,
            21, 22, 23, 24, 25, 26, 27, 28, 29, 30, 31] } := by
  refine ⟨⟨by decide, by decide, by decide, by decide, by decide, by decide, by decide,
    by decide, by decide⟩,
    do_signal_frame_contents cfg0 p0 (by decide) (by decide) (by decide) (by decide)
      (by decide), ?_⟩
  obtain ⟨o, ho, _, _, _, hlit, _, hdec, _, _, _, hbyte, hfull, _, _⟩ :=
    do_signal_frame_contents cfg0 p0 (by decide) (by decide) (by decide) (by decide)
      (by decide)
  obtain ⟨e2, e1, _⟩ := hlit (by decide) (by decide)
  have a2eq : o.p.trapframe.a2 = 3808 := e2
  have a1eq : o.p.trapframe.a1 = 4072 := by rw [e1, a2eq]; rfl
  have hp := hfull (by decide)
  have hd := hdec (by decide)
  have hb0 := hbyte 0 (by decide)
  have hb23 := hbyte 23 (by decide)
  rw [a1eq] at hp hb0 hb23
  rw [a2eq] at hd
  exact ⟨o, ho, a2eq, a1eq, hp.trans (by decide), hb0.trans (by decide),
    hb23.trans (by decide), hd⟩

theorem do_signal_some (c : Config) (p : proc) (hd : deliverable p ≠ 0)
    (hs : selected c p ≤ c.SIGMAX) :
    ∃ o, do_signal c p = some o ∧
      o.p.signal.sigpending = p.signal.sigpending &&& not64 (sigmask (selected c p)) ∧
      o.p.signal.sa = p.signal.sa ∧ o.p.signal.siginfos = p.signal.siginfos ∧
      o.p.pid = p.pid ∧ o.p.state = p.state := by
  by_cases hi : (p.signal.sa (selected c p)).sa_sigaction = c.SIG_IGN
  · exact ⟨_, do_signal_ignore c p hd hs hi, rfl, rfl, rfl, rfl, rfl⟩
  · by_cases hf : (p.signal.sa (selected c p)).sa_sigaction = c.SIG_DFL
    · exact ⟨_, do_signal_default c p hd hs hi hf, rfl, rfl, rfl, rfl, rfl⟩
    · cases hw : frameWritesOk c p (selected c p) with
      | true =>
        obtain ⟨mm1, mm2, h1, h2⟩ := frameWritesOk_copies hw
        exact ⟨_, do_signal_handler_ok c p hd hs ⟨hi, hf⟩ mm1 mm2 h1 h2, rfl, rfl, rfl, rfl, rfl⟩
      | false =>
        obtain ⟨mm1, _, h⟩ := do_signal_handler_fault c p hd hs ⟨hi, hf⟩ hw
        exact ⟨_, h, rfl, rfl, rfl, rfl, rfl⟩

theorem inRange_of_bounds (c : Config) (set : Nat) (h1 : set < 2 ^ (c.SIGMAX + 1))
    (h2 : set % 2 ^ c.SIGMIN = 0) : inRange c set := by
  intro i hi
  constructor
  · by_contra hlt
    obtain ⟨k, hk⟩ := Nat.dvd_of_mod_eq_zero h2
    rw [hk, Nat.testBit_mul_pow_two] at hi
    simp only [Bool.and_eq_true, decide_eq_true_eq] at hi
    omega
  · by_contra hgt
    have : set < 2 ^ i :=
      Nat.lt_of_lt_of_le h1 (Nat.pow_le_pow_right (by decide) (by omega))
    rw [Nat.testBit_lt_two_pow this] at hi
    exact Bool.noConfusion hi

/-- C2: with the pending bits in `[SIGMIN, SIGMAX]` and a deliverable signal,
the signal that `do_signal` acts on is the least member of
`pending AND NOT blocked`, and in every branch the pending set afterwards is
the previous one without exactly that bit. -/
theorem do_signal_selects_least (c : Config) (p : proc) (hc : c.wf)
    (hr : inRange c p.signal.sigpending) (hd : deliverable p ≠ 0) :
    (c.SIGMIN ≤ selected c p ∧ selected c p ≤ c.SIGMAX) ∧
    (deliverable p).testBit (selected c p) = true ∧
    (∀ i, (deliverable p).testBit i = true → selected c p ≤ i) ∧
    ∃ o, do_signal c p = some o ∧
      o.p.signal.sigpending.testBit (selected c p) = false ∧
      ∀ i, i ≠ selected c p →
        o.p.signal.sigpending.testBit i = p.signal.sigpending.testBit i := by
  obtain ⟨h1, h2, h3, h4⟩ := selected_least c hc p hr hd
  obtain ⟨o, ho, hp, _⟩ := do_signal_some c p hd h2
  have h64 : selected c p < 64 := Nat.lt_of_le_of_lt h2 hc.2.1
  refine ⟨⟨h1, h2⟩, h3, h4, o, ho, ?_, ?_⟩
  · rw [hp, testBit_clear h64]
    simp
  · intro i hi
    rw [hp, testBit_clear h64]
    cases hb : p.signal.sigpending.testBit i with
    | false => simp
    | true =>
      have : i < 64 := Nat.lt_of_le_of_lt (hr i hb).2 hc.2.1
      simp [hi, this]

/-- Witness of C2 at the process `p0`. -/
theorem do_signal_selects_least_witness :
    (cfg0.wf ∧ inRange cfg0 p0.signal.sigpending ∧ deliverable p0 ≠ 0) ∧
    (cfg0.SIGMIN ≤ selected cfg0 p0 ∧ selected cfg0 p0 ≤ cfg0.SIGMAX) ∧
    (deliverable p0).testBit (selected cfg0 p0) = true ∧
    (∀ i, (deliverable p0).testBit i = true → selected cfg0 p0 ≤ i) ∧
    ∃ o, do_signal cfg0 p0 = some o ∧
      o.p.signal.sigpending.testBit (selected cfg0 p0) = false ∧
      ∀ i, i ≠ selected cfg0 p0 →
        o.p.signal.sigpending.testBit i = p0.signal.sigpending.testBit i :=
  ⟨⟨by decide, inRange_of_bounds cfg0 _ (by decide) (by decide), by decide⟩,
    do_signal_selects_least cfg0 p0 (by decide)
      (inRange_of_bounds cfg0 _ (by decide) (by decide)) (by decide)⟩

/-- C5, as amended: after `do_signal` dispatches the signal `s` to a custom
handler, the blocked mask is the union of the previous blocked mask, the extra
mask of the disposition and the bit of `s`. -/
theorem do_signal_handler_mask (c : Config) (p : proc) (hc : c.wf)
    (hd : deliverable p ≠ 0) (hs : selected c p ≤ c.SIGMAX)
    (hh : customHandler c p (selected c p))
    (hw : frameWritesOk c p (selected c p) = true) :
    ∃ o, do_signal c p = some o ∧ o.ret = 0 ∧
      o.p.signal.sigmask = p.signal.sigmask |||
        ((p.signal.sa (selected c p)).sa_mask ||| 2 ^ selected c p) ∧
      ∀ i, o.p.signal.sigmask.testBit i =
        (p.signal.sigmask.testBit i ||
          ((p.signal.sa (selected c p)).sa_mask.testBit i || decide (selected c p = i))) := by
  obtain ⟨mm1, mm2, h1, h2⟩ := frameWritesOk_copies hw
  have h64 : selected c p < 64 := Nat.lt_of_le_of_lt hs hc.2.1
  refine ⟨_, do_signal_handler_ok c p hd hs hh mm1 mm2 h1 h2, rfl, ?_, ?_⟩
  · show p.signal.sigmask ||| ((p.signal.sa (selected c p)).sa_mask ||| sigmask (selected c p)) = _
    rw [sigmask_eq h64]
  · intro i
    show (p.signal.sigmask |||
      ((p.signal.sa (selected c p)).sa_mask ||| sigmask (selected c p))).testBit i = _
    rw [sigmask_eq h64, Nat.testBit_or, Nat.testBit_or, Nat.testBit_two_pow]

/-- Witness of C5, as amended, at the process `p0`. -/
theorem do_signal_handler_mask_witness :
    (cfg0.wf ∧ deliverable p0 ≠ 0 ∧ selected cfg0 p0 ≤ cfg0.SIGMAX ∧
      customHandler cfg0 p0 (selected cfg0 p0) ∧
      frameWritesOk cfg0 p0 (selected cfg0 p0) = true) ∧
    ∃ o, do_signal cfg0 p0 = some o ∧ o.ret = 0 ∧
      o.p.signal.sigmask = p0.signal.sigmask |||
        ((p0.signal.sa (selected cfg0 p0)).sa_mask ||| 2 ^ selected cfg0 p0) ∧
      ∀ i, o.p.signal.sigmask.testBit i =
        (p0.signal.sigmask.testBit i ||
          ((p0.signal.sa (selected cfg0 p0)).sa_mask.testBit i ||
            decide (selected cfg0 p0 = i))) :=
  ⟨⟨by decide, by decide, by decide, by decide, by decide⟩,
    do_signal_handler_mask cfg0 p0 (by decide) (by decide) (by decide) (by decide) (by decide)⟩

/-- C5 as stated fails: the process `p0` has signal 5 blocked and receives
signal 2 in a handler whose extra mask is signal 3; afterwards the blocked mask
is `{2, 3, 5}`, not the union `{2, 3}` of the extra mask and the bit of 2. -/
theorem do_signal_mask_keeps_blocked :
    customHandler cfg0 p0 (selected cfg0 p0) ∧
    frameWritesOk cfg0 p0 (selected cfg0 p0) = true ∧
    selected cfg0 p0 = 2 ∧
    (p0.signal.sa 2).sa_mask ||| sigmask 2 = 12 ∧
    ∃ o, do_signal cfg0 p0 = some o ∧ o.ret = 0 ∧ o.p.signal.sigmask = 44 ∧
      o.p.signal.sigmask ≠ (p0.signal.sa 2).sa_mask ||| sigmask 2 := by
  refine ⟨by decide, by decide, by decide, by decide, ?_⟩
  obtain ⟨mm1, mm2, h1, h2⟩ :=
    frameWritesOk_copies (show frameWritesOk cfg0 p0 (selected cfg0 p0) = true by decide)
  refine ⟨_, do_signal_handler_ok cfg0 p0 (by decide) (by decide) (by decide) mm1 mm2 h1 h2,
    rfl, ?_, ?_⟩
  · show p0.signal.sigmask |||
      ((p0.signal.sa (selected cfg0 p0)).sa_mask ||| sigmask (selected cfg0 p0)) = 44
    decide
  · show p0.signal.sigmask |||
      ((p0.signal.sa (selected cfg0 p0)).sa_mask ||| sigmask (selected cfg0 p0))
        ≠ (p0.signal.sa 2).sa_mask ||| sigmask 2
    decide

/-- C6: when the selected signal has the default disposition, `do_signal`
calls `setkilled` on the current process exactly once, with status
`-10 - s`, returns 0 and leaves the trap frame, the blocked mask, the
disposition table and user memory unchanged. -/
theorem do_signal_default_action (c : Config) (p : proc) (hc : c.wf)
    (hd : deliverable p ≠ 0) (hs : selected c p ≤ c.SIGMAX)
    (hf : (p.signal.sa (selected c p)).sa_sigaction = c.SIG_DFL) :
    ∃ o, do_signal c p = some o ∧ o.ret = 0 ∧
      o.calls = [Call.setkilled p.pid (-10 - (selected c p : Int))] ∧
      o.p.trapframe = p.trapframe ∧ o.p.signal.sigmask = p.signal.sigmask ∧
      o.p.signal.sa = p.signal.sa ∧ o.p.mm = p.mm := by
  have hi : (p.signal.sa (selected c p)).sa_sigaction ≠ c.SIG_IGN := by
    rw [hf]; exact hc.2.2.1
  exact ⟨_, do_signal_default c p hd hs hi hf, rfl, rfl, rfl, rfl, rfl, rfl⟩

/-- Witness of C6 at the process `pDefault`, which receives signal 6. -/
theorem do_signal_default_action_witness :
    (cfg0.wf ∧ deliverable pDefault ≠ 0 ∧ selected cfg0 pDefault ≤ cfg0.SIGMAX ∧
      (pDefault.signal.sa (selected cfg0 pDefault)).sa_sigaction = cfg0.SIG_DFL) ∧
    ∃ o, do_signal cfg0 pDefault = some o ∧ o.ret = 0 ∧
      o.calls = [Call.setkilled pDefault.pid (-10 - (selected cfg0 pDefault : Int))] ∧
      o.p.trapframe = pDefault.trapframe ∧ o.p.signal.sigmask = pDefault.signal.sigmask ∧
      o.p.signal.sa = pDefault.signal.sa ∧ o.p.mm = pDefault.mm :=
  ⟨⟨by decide, by decide, by decide, by decide⟩,
    do_signal_default_action cfg0 pDefault (by decide) (by decide) (by decide) (by decide)⟩

/-- C7: when the selected signal has a custom handler and a frame write
fails, `do_signal` returns `-EFAULT`; the blocked mask, `epc` and `ra` keep
their values, no collaborator is called, and the bit of the signal stays
cleared in the pending set while every other pending bit is kept. -/
theorem do_signal_fault (c : Config) (p : proc) (hc : c.wf)
    (hd : deliverable p ≠ 0) (hs : selected c p ≤ c.SIGMAX)
    (hh : customHandler c p (selected c p))
    (hw : frameWritesOk c p (selected c p) = false) :
    ∃ o, do_signal c p = some o ∧ o.ret = -(c.EFAULT : Int) ∧
      o.p.signal.sigmask = p.signal.sigmask ∧
      o.p.trapframe.epc = p.trapframe.epc ∧ o.p.trapframe.ra = p.trapframe.ra ∧
      o.calls = [] ∧
      o.p.signal.sigpending.testBit (selected c p) = false ∧
      o.p.signal.sigpending = p.signal.sigpending &&& not64 (sigmask (selected c p)) := by
  obtain ⟨mm1, _, h⟩ := do_signal_handler_fault c p hd hs hh hw
  have h64 : selected c p < 64 := Nat.lt_of_le_of_lt hs hc.2.1
  refine ⟨_, h, rfl, rfl, rfl, rfl, rfl, ?_, rfl⟩
  show (p.signal.sigpending &&& not64 (sigmask (selected c p))).testBit (selected c p) = false
  rw [testBit_clear h64]
  simp

/-- Witness of C7 at the process `pFault`, whose stack is not mapped. -/
theorem do_signal_fault_witness :
    (cfg0.wf ∧ deliverable pFault ≠ 0 ∧ selected cfg0 pFault ≤ cfg0.SIGMAX ∧
      customHandler cfg0 pFault (selected cfg0 pFault) ∧
      frameWritesOk cfg0 pFault (selected cfg0 pFault) = false) ∧
    ∃ o, do_signal cfg0 pFault = some o ∧ o.ret = -(cfg0.EFAULT : Int) ∧
      o.p.signal.sigmask = pFault.signal.sigmask ∧
      o.p.trapframe.epc = pFault.trapframe.epc ∧ o.p.trapframe.ra = pFault.trapframe.ra ∧
      o.calls = [] ∧
      o.p.signal.sigpending.testBit (selected cfg0 pFault) = false ∧
      o.p.signal.sigpending
        = pFault.signal.sigpending &&& not64 (sigmask (selected cfg0 pFault)) :=
  ⟨⟨by decide, by decide, by decide, by decide, by decide⟩,
    do_signal_fault cfg0 pFault (by decide) (by decide) (by decide) (by decide) (by decide)⟩

/-! ## Lifecycle hooks -/

theorem foldl_setEntry {β : Type} (v : β) (l : List Nat) :
    ∀ (tbl : Nat → β) (j : Nat),
      (l.foldl (fun acc i => setEntry acc i v) tbl) j = if j ∈ l then v else tbl j := by
  induction l with
  | nil => intro tbl j; simp
  | cons a l ih =>
    intro tbl j
    rw [List.foldl_cons, ih]
    by_cases h1 : j ∈ l
    · simp [h1]
    · by_cases h2 : j = a
      · simp [h1, h2, setEntry]
      · simp [h1, h2, setEntry]

theorem siginit_sa (c : Config) (p : proc) (i : Nat) :
    (siginit c p).p.signal.sa i =
      if c.SIGMIN ≤ i ∧ i ≤ c.SIGMAX then ⟨c.SIG_DFL, 0, 0⟩ else ⟨0, 0, 0⟩ := by
  show (forRange c.SIGMIN c.SIGMAX
    (fun i tbl => setEntry tbl i (sigaction_t.mk c.SIG_DFL 0 0))
    (fun _ => sigaction_t.mk 0 0 0)) i = _
  unfold forRange
  rw [foldl_setEntry]
  simp only [List.mem_range'_1]
  by_cases h : c.SIGMIN ≤ i ∧ i ≤ c.SIGMAX
  · rw [if_pos h, if_pos ⟨h.1, by omega⟩]
  · rw [if_neg h, if_neg (fun h2 => h ⟨h2.1, by omega⟩)]

/-- C9: with no deliverable signal `do_signal` returns 0, calls nothing and
leaves the process as it is; the state that `siginit` produces has empty
pending and blocked masks and the default disposition for every signal, and
`do_signal` does nothing on it. -/
theorem do_signal_nothing_deliverable (c : Config) (p q : proc) (h : deliverable p = 0) :
    do_signal c p = some ⟨0, p, []⟩ ∧
    (siginit c q).ret = 0 ∧ (siginit c q).calls = [] ∧
    (siginit c q).p.signal.sigpending = 0 ∧ (siginit c q).p.signal.sigmask = 0 ∧
    (∀ i, c.SIGMIN ≤ i → i ≤ c.SIGMAX → (siginit c q).p.signal.sa i = ⟨c.SIG_DFL, 0, 0⟩) ∧
    do_signal c (siginit c q).p = some ⟨0, (siginit c q).p, []⟩ := by
  refine ⟨?_, rfl, rfl, rfl, rfl, ?_, ?_⟩
  · unfold deliverable at h
    simp only [do_signal, if_pos h]
  · intro i h1 h2
    rw [siginit_sa, if_pos ⟨h1, h2⟩]
  · have h0 : (siginit c q).p.signal.sigpending &&& not64 (siginit c q).p.signal.sigmask = 0 :=
      Nat.zero_and _
    simp only [do_signal, if_pos h0]

/-- Witness of C9 at the process `pBlocked`, whose only pending signal is
blocked, and at `siginit` of the process `p0`. -/
theorem do_signal_nothing_deliverable_witness :
    deliverable pBlocked = 0 ∧ pBlocked.signal.sigpending = 32 ∧
    do_signal cfg0 pBlocked = some ⟨0, pBlocked, []⟩ ∧
    (siginit cfg0 p0).ret = 0 ∧ (siginit cfg0 p0).calls = [] ∧
    (siginit cfg0 p0).p.signal.sigpending = 0 ∧ (siginit cfg0 p0).p.signal.sigmask = 0 ∧
    (∀ i, cfg0.SIGMIN ≤ i → i ≤ cfg0.SIGMAX →
      (siginit cfg0 p0).p.signal.sa i = ⟨cfg0.SIG_DFL, 0, 0⟩) ∧
    do_signal cfg0 (siginit cfg0 p0).p = some ⟨0, (siginit cfg0 p0).p, []⟩ :=
  ⟨by decide, by decide, do_signal_nothing_deliverable cfg0 pBlocked p0 (by decide)⟩

/-- C1 fails on the code: after `do_signal` has entered a custom handler,
`sys_sigreturn` on any state that still has the stack pointer `do_signal` left
and the same user memory returns 0 and restores `epc`, the blocked mask and
every register except `sp`. The saved `sp` is the value before the frame was
pushed, and `sys_sigreturn` adds the frame size to it once more, so `sp` ends
`sizeof(struct ucontext) + sizeof(siginfo_t)` above its value before
`do_signal`. -/
theorem sigreturn_after_do_signal (c : Config) (p : proc) (hc : c.wf)
    (hd : deliverable p ≠ 0) (hs : selected c p ≤ c.SIGMAX)
    (hh : customHandler c p (selected c p))
    (hw : frameWritesOk c p (selected c p) = true) (hws : wordSized p) :
    ∃ o, do_signal c p = some o ∧
      ∀ q : proc, q.trapframe.sp = o.p.trapframe.sp → q.mm = o.p.mm →
        (sys_sigreturn c q).ret = 0 ∧
        (sys_sigreturn c q).p.signal.sigmask = p.signal.sigmask ∧
        (sys_sigreturn c q).p.trapframe =
          { p.trapframe with sp := add64 p.trapframe.sp (UCONTEXT_SIZE + c.SIGINFO_SIZE) } ∧
        (sys_sigreturn c q).p.trapframe.sp ≠ p.trapframe.sp := by
  obtain ⟨mm1, mm2, h1, h2⟩ := frameWritesOk_copies hw
  obtain ⟨hmap, hread⟩ := frame_context_readback c p _ mm1 mm2 hc h1 h2
  refine ⟨_, do_signal_handler_ok c p hd hs hh mm1 mm2 h1 h2, ?_⟩
  intro q hsp hmm
  change q.trapframe.sp = frame_sp c p at hsp
  change q.mm = mm2 at hmm
  have hcopy : copy_from_user q.mm q.trapframe.sp UCONTEXT_SIZE
      = some (encodeUcontext (save_context p)) := by
    unfold copy_from_user
    rw [hmm, hsp, if_pos hmap, hread]
  have hdec : decodeUcontext (encodeUcontext (save_context p)) = save_context p :=
    decodeUcontext_encodeUcontext _ rfl hws.1 (hws.2 _ (List.mem_cons_self _ _))
      (fun r hr => hws.2 r (List.mem_cons_of_mem _ hr))
  have hspw : p.trapframe.sp < WORD :=
    hws.2 _ (List.mem_cons_of_mem _ (by simp [save_context]))
  have hsize := hc.2.2.2
  have hadd : add64 p.trapframe.sp (add64 UCONTEXT_SIZE c.SIGINFO_SIZE)
      = add64 p.trapframe.sp (UCONTEXT_SIZE + c.SIGINFO_SIZE) := by
    unfold add64 UCONTEXT_SIZE WORD; omega
  have hne : add64 p.trapframe.sp (UCONTEXT_SIZE + c.SIGINFO_SIZE) ≠ p.trapframe.sp := by
    unfold add64 UCONTEXT_SIZE WORD at *; omega
  simp only [sys_sigreturn, hcopy, hdec]
  refine ⟨trivial, rfl, ?_, ?_⟩
  · simp only [save_context, List.getD_cons_zero, List.getD_cons_succ, hadd]
  · simp only [save_context, List.getD_cons_zero, List.getD_cons_succ, hadd]
    exact hne

/-- Witness of the round trip at the process `p0`: the stack pointer was 4096
before `do_signal` and is 4384 after `sys_sigreturn`. -/
theorem sigreturn_after_do_signal_witness :
    (cfg0.wf ∧ deliverable p0 ≠ 0 ∧ selected cfg0 p0 ≤ cfg0.SIGMAX ∧
      customHandler cfg0 p0 (selected cfg0 p0) ∧
      frameWritesOk cfg0 p0 (selected cfg0 p0) = true ∧ wordSized p0) ∧
    p0.trapframe.sp = 4096 ∧
    ∃ o, do_signal cfg0 p0 = some o ∧
      (sys_sigreturn cfg0 o.p).ret = 0 ∧
      (sys_sigreturn cfg0 o.p).p.trapframe.sp = 4384 := by
  refine ⟨⟨by decide, by decide, by decide, by decide, by decide, by decide⟩, rfl, ?_⟩
  obtain ⟨o, ho, h⟩ := sigreturn_after_do_signal cfg0 p0 (by decide) (by decide) (by decide)
    (by decide) (by decide) (by decide)
  obtain ⟨h1, _, h3, _⟩ := h o.p rfl rfl
  refine ⟨o, ho, h1, ?_⟩
  rw [h3]
  decide

/-! ## Raising a signal -/

theorem raise_on_pid (c : Config) (p : proc) (n : Nat) : (raise_on c p n).1.pid = p.pid := by
  unfold raise_on
  by_cases h : p.state = procstate.SLEEPING <;> simp [h]

theorem raise_on_pending (c : Config) (p : proc) (n : Nat) :
    (raise_on c p n).1.signal.sigpending = p.signal.sigpending ||| sigmask n := by
  unfold raise_on
  by_cases h : p.state = procstate.SLEEPING <;> simp [h]

theorem sigkill_scan_spec (c : Config) (pid : Int) (n : Nat) :
    ∀ (pool : List proc) (t : proc), target pool pid = some t →
      ∃ pre post, pool = pre ++ t :: post ∧ (∀ q, q ∈ pre → q.pid ≠ pid) ∧ t.pid = pid ∧
        sigkill_scan c pid n pool
          = some (pre ++ (raise_on c t n).1 :: post, (raise_on c t n).2) := by
  intro pool
  induction pool with
  | nil => intro t ht; exact Option.noConfusion ht
  | cons a rest ih =>
    intro t ht
    unfold target at ht
    by_cases ha : a.pid = pid
    · rw [List.find?_cons_of_pos _ (by simpa using ha)] at ht
      cases ht
      refine ⟨[], rest, rfl, fun q hq => absurd hq (List.not_mem_nil q), ha, ?_⟩
      simp only [sigkill_scan, if_pos ha, List.nil_append]
    · rw [List.find?_cons_of_neg _ (by simpa using ha)] at ht
      obtain ⟨pre, post, h1, h2, h3, h4⟩ := ih t ht
      refine ⟨a :: pre, post, by rw [h1]; rfl, ?_, h3, ?_⟩
      · intro q hq
        rcases List.mem_cons.1 hq with h | h
        · rw [h]; exact ha
        · exact h2 q h
      · simp only [sigkill_scan, if_neg ha, h4, List.cons_append]

theorem target_of_split (pid : Int) (pre post : List proc) (t : proc)
    (h1 : ∀ q, q ∈ pre → q.pid ≠ pid) (h2 : t.pid = pid) :
    target (pre ++ t :: post) pid = some t := by
  unfold target
  induction pre with
  | nil => exact List.find?_cons_of_pos _ (by simpa using h2)
  | cons a pre ih =>
    rw [List.cons_append, List.find?_cons_of_neg _ (by simpa using h1 a (List.mem_cons_self _ _))]
    exact ih (fun q hq => h1 q (List.mem_cons_of_mem _ hq))

theorem target_of_mem (pool : List proc) (pid : Int) (h : ∃ q, q ∈ pool ∧ q.pid = pid) :
    ∃ t, target pool pid = some t := by
  obtain ⟨q, hq, hp⟩ := h
  unfold target
  cases hf : pool.find? (fun q => decide (q.pid = pid)) with
  | some t => exact ⟨t, rfl⟩
  | none =>
    have := List.find?_eq_none.1 hf q hq
    simp [hp] at this

/-- What `sys_sigkill` returns for a valid signal number and a matching
process. -/
theorem sys_sigkill_hit (c : Config) (pool : List proc) (pid : Int) (n : Nat) (code : Int)
    (h1 : c.SIGMIN ≤ n) (h2 : n ≤ c.SIGMAX) (t : proc) (ht : target pool pid = some t) :
    ∃ pre post, pool = pre ++ t :: post ∧ (∀ q, q ∈ pre → q.pid ≠ pid) ∧ t.pid = pid ∧
      sys_sigkill c pool pid n code
        = ⟨0, pre ++ (raise_on c t n).1 :: post, (raise_on c t n).2⟩ := by
  obtain ⟨pre, post, e1, e2, e3, e4⟩ := sigkill_scan_spec c pid n pool t ht
  refine ⟨pre, post, e1, e2, e3, ?_⟩
  have hv : ¬ ((n : Int) < c.SIGMIN ∨ (n : Int) > c.SIGMAX) := by omega
  simp only [sys_sigkill, if_neg hv, Int.toNat_ofNat, e4]

/-- C10: for a signal number `n` of `[SIGMIN, SIGMAX]` and a table with a
process of the given `pid`, `sys_sigkill` returns 0 and sets bit `n` in the
pending set of the target, keeping every other pending bit; a second
`sys_sigkill` of the same signal, with any code, returns 0 and leaves the
pending set of the target, and of every process, as the first left it. -/
theorem sys_sigkill_idempotent (c : Config) (pool : List proc) (pid : Int) (n : Nat)
    (code code2 : Int) (hc : c.wf) (h1 : c.SIGMIN ≤ n) (h2 : n ≤ c.SIGMAX)
    (hm : ∃ q, q ∈ pool ∧ q.pid = pid) :
    ∃ t t1 t2, target pool pid = some t ∧
      (sys_sigkill c pool pid n code).ret = 0 ∧
      target (sys_sigkill c pool pid n code).pool pid = some t1 ∧
      t1.signal.sigpending.testBit n = true ∧
      (∀ i, i ≠ n → t1.signal.sigpending.testBit i = t.signal.sigpending.testBit i) ∧
      (sys_sigkill c (sys_sigkill c pool pid n code).pool pid n code2).ret = 0 ∧
      target (sys_sigkill c (sys_sigkill c pool pid n code).pool pid n code2).pool pid
        = some t2 ∧
      t2.signal.sigpending = t1.signal.sigpending ∧
      (sys_sigkill c (sys_sigkill c pool pid n code).pool pid n code2).pool.map
          (fun q => q.signal.sigpending)
        = (sys_sigkill c pool pid n code).pool.map (fun q => q.signal.sigpending) := by
  obtain ⟨t, ht⟩ := target_of_mem pool pid hm
  obtain ⟨pre, post, e1, e2, e3, e4⟩ := sys_sigkill_hit c pool pid n code h1 h2 t ht
  have hpid1 : (raise_on c t n).1.pid = pid := by rw [raise_on_pid]; exact e3
  have ht1 : target (sys_sigkill c pool pid n code).pool pid = some (raise_on c t n).1 := by
    rw [e4]; exact target_of_split pid pre _ _ e2 hpid1
  obtain ⟨pre2, post2, f1, f2, f3, f4⟩ :=
    sys_sigkill_hit c (sys_sigkill c pool pid n code).pool pid n code2 h1 h2 _ ht1
  have hpid2 : (raise_on c (raise_on c t n).1 n).1.pid = pid := by rw [raise_on_pid]; exact f3
  have h64 : n < 64 := Nat.lt_of_le_of_lt h2 hc.2.1
  have hsame : (raise_on c (raise_on c t n).1 n).1.signal.sigpending
      = (raise_on c t n).1.signal.sigpending := by
    rw [raise_on_pending, raise_on_pending, Nat.or_assoc, Nat.or_self]
  refine ⟨t, (raise_on c t n).1, (raise_on c (raise_on c t n).1 n).1, ht, ?_, ht1, ?_, ?_, ?_,
    ?_, hsame, ?_⟩
  · rw [e4]
  · rw [raise_on_pending, sigmask_eq h64, Nat.testBit_or, Nat.testBit_two_pow_self,
      Bool.or_true]
  · intro i hi
    rw [raise_on_pending, sigmask_eq h64, Nat.testBit_or,
      Nat.testBit_two_pow_of_ne (fun h => hi h.symm), Bool.or_false]
  · rw [f4]
  · rw [f4]; exact target_of_split pid pre2 _ _ f2 hpid2
  · rw [f4]
    conv => rhs; rw [f1]
    simp only [List.map_append, List.map_cons, hsame]

/-- Witness of C10: signal 3 raised twice on the process with `pid` 7. -/
theorem sys_sigkill_idempotent_witness :
    (cfg0.wf ∧ cfg0.SIGMIN ≤ 3 ∧ 3 ≤ cfg0.SIGMAX ∧ ∃ q, q ∈ [pSleep, p0] ∧ q.pid = 7) ∧
    ∃ t t1 t2, target [pSleep, p0] 7 = some t ∧
      (sys_sigkill cfg0 [pSleep, p0] 7 (3 : Nat) 0).ret = 0 ∧
      target (sys_sigkill cfg0 [pSleep, p0] 7 (3 : Nat) 0).pool 7 = some t1 ∧
      t1.signal.sigpending.testBit 3 = true ∧
      (∀ i, i ≠ 3 → t1.signal.sigpending.testBit i = t.signal.sigpending.testBit i) ∧
      (sys_sigkill cfg0 (sys_sigkill cfg0 [pSleep, p0] 7 (3 : Nat) 0).pool 7 (3 : Nat) 1).ret
        = 0 ∧
      target (sys_sigkill cfg0 (sys_sigkill cfg0 [pSleep, p0] 7 (3 : Nat) 0).pool 7
        (3 : Nat) 1).pool 7 = some t2 ∧
      t2.signal.sigpending = t1.signal.sigpending ∧
      (sys_sigkill cfg0 (sys_sigkill cfg0 [pSleep, p0] 7 (3 : Nat) 0).pool 7
          (3 : Nat) 1).pool.map (fun q => q.signal.sigpending)
        = (sys_sigkill cfg0 [pSleep, p0] 7 (3 : Nat) 0).pool.map
            (fun q => q.signal.sigpending) :=
  ⟨⟨by decide, by decide, by decide, p0, by simp, rfl⟩,
    sys_sigkill_idempotent cfg0 [pSleep, p0] 7 3 0 1 (by decide) (by decide) (by decide)
      ⟨p0, by simp, rfl⟩⟩

/-! ## Repeated delivery -/

theorem mem_members (set i : Nat) : i ∈ members set ↔ i < 64 ∧ set.testBit i = true := by
  simp [members]

theorem members_sorted (set : Nat) : List.Pairwise (fun a b => a < b) (members set) :=
  List.Pairwise.filter _ (List.pairwise_lt_range 64)

theorem members_eq_cons (d d1 s : Nat) (h64 : s < 64) (hs : d.testBit s = true)
    (hleast : ∀ i, d.testBit i = true → s ≤ i)
    (hd1 : ∀ i, d1.testBit i = (decide (i ≠ s) && d.testBit i)) :
    members d = s :: members d1 := by
  have hlt : ∀ i, i ∈ members d1 → s < i := by
    intro i hi
    have h := ((mem_members d1 i).1 hi).2
    rw [hd1] at h
    simp only [Bool.and_eq_true, decide_eq_true_eq] at h
    have := hleast i h.2
    omega
  have hsorted : List.Sorted (fun a b => a < b) (s :: members d1) :=
    List.pairwise_cons.2 ⟨hlt, members_sorted d1⟩
  apply List.eq_of_perm_of_sorted _ (members_sorted d) hsorted
  apply (List.perm_ext_iff_of_nodup (List.Sorted.nodup (members_sorted d))
    (List.Sorted.nodup hsorted)).2
  intro i
  rw [List.mem_cons, mem_members, mem_members, hd1]
  simp only [Bool.and_eq_true, decide_eq_true_eq]
  constructor
  · intro h
    by_cases e : i = s
    · exact Or.inl e
    · exact Or.inr ⟨h.1, e, h.2⟩
  · intro h
    rcases h with e | h
    · rw [e]; exact ⟨h64, hs⟩
    · exact ⟨h.1, h.2.2⟩

theorem members_eq_nil (d : Nat) (hlt : ∀ i, d.testBit i = true → i < 64)
    (h : members d = []) : d = 0 := by
  by_contra hne
  obtain ⟨i, hi⟩ := Nat.ne_zero_implies_bit_true hne
  have : i ∈ members d := (mem_members d i).2 ⟨hlt i hi, hi⟩
  rw [h] at this
  exact List.not_mem_nil i this

theorem deliverable_lt (p : proc) (i : Nat) (h : (deliverable p).testBit i = true) : i < 64 := by
  rw [testBit_deliverable] at h
  simp only [Bool.and_eq_true, decide_eq_true_eq] at h
  exact h.2.1

/-- One call of `do_signal` when the selected signal is ignored or has the
default action: only the pending bit of the signal changes. -/
theorem do_signal_plain (c : Config) (p : proc) (hd : deliverable p ≠ 0)
    (hs : selected c p ≤ c.SIGMAX)
    (hp : (p.signal.sa (selected c p)).sa_sigaction = c.SIG_IGN ∨
      (p.signal.sa (selected c p)).sa_sigaction = c.SIG_DFL) :
    ∃ o, do_signal c p = some o ∧ o.ret = 0 ∧
      o.p.signal.sigpending = p.signal.sigpending &&& not64 (sigmask (selected c p)) ∧
      o.p.signal.sigmask = p.signal.sigmask ∧ o.p.signal.sa = p.signal.sa := by
  by_cases hi : (p.signal.sa (selected c p)).sa_sigaction = c.SIG_IGN
  · exact ⟨_, do_signal_ignore c p hd hs hi, rfl, rfl, rfl, rfl⟩
  · rcases hp with h | h
    · exact absurd h hi
    · exact ⟨_, do_signal_default c p hd hs hi h, rfl, rfl, rfl, rfl⟩

theorem deliver_all_aux (c : Config) (hc : c.wf) :
    ∀ (n : Nat) (p : proc), (members (deliverable p)).length = n →
      inRange c p.signal.sigpending →
      (∀ i, (deliverable p).testBit i = true →
        (p.signal.sa i).sa_sigaction = c.SIG_IGN ∨ (p.signal.sa i).sa_sigaction = c.SIG_DFL) →
      ∃ q, deliver_all c n p = some ((members (deliverable p)).map some, q) ∧
        deliverable q = 0 ∧ q.signal.sigmask = p.signal.sigmask ∧
        ∀ i, q.signal.sigpending.testBit i
          = (p.signal.sigpending.testBit i && !(deliverable p).testBit i) := by
  intro n
  induction n with
  | zero =>
    intro p hlen _ _
    have hnil : members (deliverable p) = [] := List.length_eq_zero.1 hlen
    have hz : deliverable p = 0 := members_eq_nil _ (deliverable_lt p) hnil
    refine ⟨p, by rw [hnil]; rfl, hz, rfl, ?_⟩
    intro i
    rw [hz]
    simp
  | succ n ih =>
    intro p hlen hr hplain
    have hd : deliverable p ≠ 0 := by
      intro hz
      rw [hz] at hlen
      exact Nat.succ_ne_zero n (by simpa [members] using hlen.symm)
    obtain ⟨h1, h2, h3, h4⟩ := selected_least c hc p hr hd
    have h64 : selected c p < 64 := Nat.lt_of_le_of_lt h2 hc.2.1
    obtain ⟨o, ho, _, hpend, hmask, hsa⟩ := do_signal_plain c p hd h2 (hplain _ h3)
    have hbit : ∀ i, (deliverable o.p).testBit i
        = (decide (i ≠ selected c p) && (deliverable p).testBit i) := by
      intro i
      rw [testBit_deliverable, testBit_deliverable, hpend, hmask, testBit_clear h64]
      cases decide (i ≠ selected c p) <;> cases decide (i < 64) <;>
        cases p.signal.sigpending.testBit i <;> cases p.signal.sigmask.testBit i <;> rfl
    have hcons := members_eq_cons (deliverable p) (deliverable o.p) (selected c p) h64 h3 h4 hbit
    have hlen1 : (members (deliverable o.p)).length = n := by
      rw [hcons, List.length_cons] at hlen
      exact Nat.succ.inj hlen
    have hr1 : inRange c o.p.signal.sigpending := by
      intro i hi
      rw [hpend, testBit_clear h64] at hi
      simp only [Bool.and_eq_true] at hi
      exact hr i hi.2.2
    have hplain1 : ∀ i, (deliverable o.p).testBit i = true →
        (o.p.signal.sa i).sa_sigaction = c.SIG_IGN ∨
          (o.p.signal.sa i).sa_sigaction = c.SIG_DFL := by
      intro i hi
      rw [hbit] at hi
      simp only [Bool.and_eq_true] at hi
      rw [hsa]
      exact hplain i hi.2
    obtain ⟨q, hq, hq0, hqm, hqp⟩ := ih o.p hlen1 hr1 hplain1
    refine ⟨q, ?_, hq0, by rw [hqm, hmask], ?_⟩
    · simp only [deliver_all, ho, hq, hcons, acted, if_neg hd, List.map_cons]
    · intro i
      rw [hqp, hbit, hpend, testBit_clear h64]
      by_cases e : i = selected c p
      · subst e
        rw [h3]
        simp
      · have hlt : p.signal.sigpending.testBit i = true → i < 64 := fun hb =>
          Nat.lt_of_le_of_lt (hr i hb).2 hc.2.1
        cases hb : p.signal.sigpending.testBit i with
        | false => simp
        | true => simp [e, hlt hb]

theorem plain_of_members (c : Config) (p : proc)
    (h : ∀ i, i ∈ members (deliverable p) →
      (p.signal.sa i).sa_sigaction = c.SIG_IGN ∨ (p.signal.sa i).sa_sigaction = c.SIG_DFL) :
    ∀ i, (deliverable p).testBit i = true →
      (p.signal.sa i).sa_sigaction = c.SIG_IGN ∨ (p.signal.sa i).sa_sigaction = c.SIG_DFL :=
  fun i hi => h i ((mem_members _ i).2 ⟨deliverable_lt p i hi, hi⟩)

/-- C8: with the pending bits in `[SIGMIN, SIGMAX]` and every deliverable
signal ignored or default, `k` successive `do_signal` calls, `k` being the
number of members of `pending AND NOT blocked`, all return a result and act on
exactly those members in strictly increasing order; afterwards no signal is
deliverable, the blocked mask is the same and the pending set holds exactly
the pending signals that were blocked. -/
theorem deliver_all_in_order (c : Config) (p : proc) (hc : c.wf)
    (hr : inRange c p.signal.sigpending)
    (hplain : ∀ i, (deliverable p).testBit i = true →
      (p.signal.sa i).sa_sigaction = c.SIG_IGN ∨ (p.signal.sa i).sa_sigaction = c.SIG_DFL) :
    ∃ q, deliver_all c (members (deliverable p)).length p
        = some ((members (deliverable p)).map some, q) ∧
      List.Pairwise (fun a b => a < b) (members (deliverable p)) ∧
      (∀ i, i ∈ members (deliverable p) ↔ (deliverable p).testBit i = true) ∧
      deliverable q = 0 ∧ q.signal.sigmask = p.signal.sigmask ∧
      (∀ i, p.signal.sigpending.testBit i = true → p.signal.sigmask.testBit i = true →
        q.signal.sigpending.testBit i = true) ∧
      (∀ i, q.signal.sigpending.testBit i = true → p.signal.sigpending.testBit i = true) := by
  obtain ⟨q, h1, h2, h3, h4⟩ := deliver_all_aux c hc _ p rfl hr hplain
  refine ⟨q, h1, members_sorted _, ?_, h2, h3, ?_, ?_⟩
  · intro i
    rw [mem_members]
    exact ⟨fun h => h.2, fun h => ⟨deliverable_lt p i h, h⟩⟩
  · intro i hp hm
    rw [h4, hp, testBit_deliverable, hm]
    simp
  · intro i hq
    rw [h4] at hq
    simp only [Bool.and_eq_true] at hq
    exact hq.1

/-- Witness of C8 at the process `pPlain`: signals 3 and 6 are deliverable,
signal 5 is pending and blocked. -/
theorem deliver_all_in_order_witness :
    (cfg0.wf ∧ inRange cfg0 pPlain.signal.sigpending ∧ members (deliverable pPlain) = [3, 6]) ∧
    ∃ q, deliver_all cfg0 (members (deliverable pPlain)).length pPlain
        = some ((members (deliverable pPlain)).map some, q) ∧
      List.Pairwise (fun a b => a < b) (members (deliverable pPlain)) ∧
      (∀ i, i ∈ members (deliverable pPlain) ↔ (deliverable pPlain).testBit i = true) ∧
      deliverable q = 0 ∧ q.signal.sigmask = pPlain.signal.sigmask ∧
      (∀ i, pPlain.signal.sigpending.testBit i = true →
        pPlain.signal.sigmask.testBit i = true → q.signal.sigpending.testBit i = true) ∧
      (∀ i, q.signal.sigpending.testBit i = true →
        pPlain.signal.sigpending.testBit i = true) :=
  ⟨⟨by decide, inRange_of_bounds cfg0 _ (by decide) (by decide), by decide⟩,
    deliver_all_in_order cfg0 pPlain (by decide)
      (inRange_of_bounds cfg0 _ (by decide) (by decide))
      (plain_of_members cfg0 pPlain (by decide))⟩

theorem raise_on_sa (c : Config) (p : proc) (n : Nat) :
    (raise_on c p n).1.signal.sa = p.signal.sa := by
  unfold raise_on
  by_cases h : p.state = procstate.SLEEPING <;> simp [h]

theorem raise_on_siginfos (c : Config) (p : proc) (n : Nat) :
    (raise_on c p n).1.signal.siginfos = p.signal.siginfos := by
  unfold raise_on
  by_cases h : p.state = procstate.SLEEPING <;> simp [h]

theorem raise_on_state_sleeping (c : Config) (p : proc) (n : Nat)
    (h : p.state = procstate.SLEEPING) :
    (raise_on c p n).1.state = procstate.RUNNABLE ∧
      (raise_on c p n).2.filter isAddTask = [Call.add_task p.pid] := by
  unfold raise_on
  by_cases hk : n = c.SIGKILL <;> simp [h, hk, isAddTask]

theorem raise_on_state_awake (c : Config) (p : proc) (n : Nat)
    (h : p.state ≠ procstate.SLEEPING) :
    (raise_on c p n).1.state = p.state ∧ (raise_on c p n).2.filter isAddTask = [] := by
  unfold raise_on
  by_cases hk : n = c.SIGKILL <;> simp [h, hk, isAddTask]

theorem raise_on_setkilled (c : Config) (p : proc) (n : Nat) :
    (raise_on c p n).2.filter isSetkilled =
      if n = c.SIGKILL then [Call.setkilled p.pid (-10 - (n : Int))] else [] := by
  unfold raise_on
  by_cases hk : n = c.SIGKILL <;> by_cases h : p.state = procstate.SLEEPING <;>
    simp [h, hk, isSetkilled]

/-- C11: for every table with a process of the given `pid`, whatever its
blocked mask, dispositions and scheduler state, `sys_sigkill` with `SIGKILL`
returns 0 and its only `setkilled` call is the one on the target with status
`-10 - SIGKILL`; with any other valid signal number it calls `setkilled` on
nobody. -/
theorem sys_sigkill_kill_unconditional (c : Config) (pool : List proc) (pid code : Int)
    (hk : c.SIGMIN ≤ c.SIGKILL ∧ c.SIGKILL ≤ c.SIGMAX)
    (hm : ∃ q, q ∈ pool ∧ q.pid = pid) :
    (sys_sigkill c pool pid c.SIGKILL code).ret = 0 ∧
    (sys_sigkill c pool pid c.SIGKILL code).calls.filter isSetkilled
      = [Call.setkilled pid (-10 - (c.SIGKILL : Int))] ∧
    ∀ n : Nat, c.SIGMIN ≤ n → n ≤ c.SIGMAX → n ≠ c.SIGKILL →
      (sys_sigkill c pool pid n code).ret = 0 ∧
      (sys_sigkill c pool pid n code).calls.filter isSetkilled = [] := by
  obtain ⟨t, ht⟩ := target_of_mem pool pid hm
  obtain ⟨pre, post, _, _, e3, e4⟩ := sys_sigkill_hit c pool pid c.SIGKILL code hk.1 hk.2 t ht
  refine ⟨by rw [e4], ?_, ?_⟩
  · rw [e4]
    show (raise_on c t c.SIGKILL).2.filter isSetkilled = _
    rw [raise_on_setkilled, if_pos rfl, e3]
  · intro n h1 h2 hne
    obtain ⟨pre, post, _, _, _, f4⟩ := sys_sigkill_hit c pool pid n code h1 h2 t ht
    refine ⟨by rw [f4], ?_⟩
    rw [f4]
    show (raise_on c t n).2.filter isSetkilled = _
    rw [raise_on_setkilled, if_neg hne]

/-- Witness of C11: the target `pSleep` sleeps and has the kill signal 4
blocked. -/
theorem sys_sigkill_kill_unconditional_witness :
    ((cfg0.SIGMIN ≤ cfg0.SIGKILL ∧ cfg0.SIGKILL ≤ cfg0.SIGMAX) ∧
      (∃ q, q ∈ [p0, pSleepBlocked] ∧ q.pid = 9)) ∧
    (sys_sigkill cfg0 [p0, pSleepBlocked] 9 cfg0.SIGKILL 0).ret = 0 ∧
    (sys_sigkill cfg0 [p0, pSleepBlocked] 9 cfg0.SIGKILL 0).calls.filter isSetkilled
      = [Call.setkilled 9 (-10 - (cfg0.SIGKILL : Int))] ∧
    ∀ n : Nat, cfg0.SIGMIN ≤ n → n ≤ cfg0.SIGMAX → n ≠ cfg0.SIGKILL →
      (sys_sigkill cfg0 [p0, pSleepBlocked] 9 n 0).ret = 0 ∧
      (sys_sigkill cfg0 [p0, pSleepBlocked] 9 n 0).calls.filter isSetkilled = [] :=
  ⟨⟨by decide, _, List.mem_cons_of_mem _ (List.mem_singleton_self _), rfl⟩,
    sys_sigkill_kill_unconditional cfg0 _ 9 0 (by decide)
      ⟨_, List.mem_cons_of_mem _ (List.mem_singleton_self _), rfl⟩⟩

theorem sigkill_seq_awake (c : Config) (pid : Int) :
    ∀ (more : List (Nat × Int)) (pool : List proc) (t : proc),
      (∀ x, x ∈ more → c.SIGMIN ≤ x.1 ∧ x.1 ≤ c.SIGMAX) →
      target pool pid = some t → t.state ≠ procstate.SLEEPING →
      (∀ v, v ∈ (sigkill_seq c pid more pool).1 → v = 0) ∧
      (sigkill_seq c pid more pool).1.length = more.length ∧
      (sigkill_seq c pid more pool).2.2.filter isAddTask = [] ∧
      ∃ t2, target (sigkill_seq c pid more pool).2.1 pid = some t2 ∧ t2.state = t.state := by
  intro more
  induction more with
  | nil =>
    intro pool t _ ht _
    exact ⟨fun v hv => absurd hv (List.not_mem_nil v), rfl, rfl, t, ht, rfl⟩
  | cons x more ih =>
    intro pool t hv ht hs
    obtain ⟨n, code⟩ := x
    have hn := hv (n, code) (List.mem_cons_self _ _)
    obtain ⟨pre, post, _, e2, e3, e4⟩ := sys_sigkill_hit c pool pid n code hn.1 hn.2 t ht
    obtain ⟨hst, hcalls⟩ := raise_on_state_awake c t n hs
    have ht1 : target (sys_sigkill c pool pid n code).pool pid = some (raise_on c t n).1 := by
      rw [e4]
      exact target_of_split pid pre _ _ e2 (by rw [raise_on_pid]; exact e3)
    obtain ⟨i1, i2, i3, t2, i4, i5⟩ := ih (sys_sigkill c pool pid n code).pool _
      (fun y hy => hv y (List.mem_cons_of_mem _ hy)) ht1 (by rw [hst]; exact hs)
    simp only [sigkill_seq]
    refine ⟨?_, by rw [List.length_cons, List.length_cons, i2], ?_, t2, i4, by rw [i5, hst]⟩
    · intro v hv2
      rcases List.mem_cons.1 hv2 with h | h
      · rw [h, e4]
      · exact i1 v h
    · rw [List.filter_append, i3, List.append_nil, e4]
      exact hcalls

/-- C12: a successful `sys_sigkill` on a target that is `SLEEPING` sets it
`RUNNABLE` and calls `add_task` on it exactly once; every further successful
`sys_sigkill` on it, for any valid signal numbers, returns 0, calls `add_task`
no more and leaves it `RUNNABLE`. A target that is not `SLEEPING` keeps its
scheduler state and is not enqueued. -/
theorem sys_sigkill_wakes_once (c : Config) (pool : List proc) (pid : Int) (n : Nat)
    (code : Int) (more : List (Nat × Int)) (t : proc)
    (h1 : c.SIGMIN ≤ n) (h2 : n ≤ c.SIGMAX)
    (hmore : ∀ x, x ∈ more → c.SIGMIN ≤ x.1 ∧ x.1 ≤ c.SIGMAX)
    (ht : target pool pid = some t) :
    (sys_sigkill c pool pid n code).ret = 0 ∧
    ∃ t1, target (sys_sigkill c pool pid n code).pool pid = some t1 ∧
      (t.state = procstate.SLEEPING →
        t1.state = procstate.RUNNABLE ∧
        (sys_sigkill c pool pid n code).calls.filter isAddTask = [Call.add_task pid] ∧
        (∀ v, v ∈ (sigkill_seq c pid more (sys_sigkill c pool pid n code).pool).1 → v = 0) ∧
        (sigkill_seq c pid more (sys_sigkill c pool pid n code).pool).1.length
          = more.length ∧
        (sigkill_seq c pid more (sys_sigkill c pool pid n code).pool).2.2.filter isAddTask
          = [] ∧
        ∃ t2, target (sigkill_seq c pid more (sys_sigkill c pool pid n code).pool).2.1 pid
            = some t2 ∧ t2.state = procstate.RUNNABLE) ∧
      (t.state ≠ procstate.SLEEPING →
        t1.state = t.state ∧ (sys_sigkill c pool pid n code).calls.filter isAddTask = []) := by
  obtain ⟨pre, post, _, e2, e3, e4⟩ := sys_sigkill_hit c pool pid n code h1 h2 t ht
  have ht1 : target (sys_sigkill c pool pid n code).pool pid = some (raise_on c t n).1 := by
    rw [e4]
    exact target_of_split pid pre _ _ e2 (by rw [raise_on_pid]; exact e3)
  refine ⟨by rw [e4], _, ht1, ?_, ?_⟩
  · intro hs
    obtain ⟨hst, hcalls⟩ := raise_on_state_sleeping c t n hs
    have hne : (raise_on c t n).1.state ≠ procstate.SLEEPING := by
      rw [hst]; exact fun h => procstate.noConfusion h
    obtain ⟨i1, i2, i3, t2, i4, i5⟩ :=
      sigkill_seq_awake c pid more (sys_sigkill c pool pid n code).pool _ hmore ht1 hne
    refine ⟨hst, ?_, i1, i2, i3, t2, i4, by rw [i5, hst]⟩
    rw [e4]
    show (raise_on c t n).2.filter isAddTask = _
    rw [hcalls, e3]
  · intro hs
    obtain ⟨hst, hcalls⟩ := raise_on_state_awake c t n hs
    refine ⟨hst, ?_⟩
    rw [e4]
    exact hcalls

/-- Witness of C12: signal 3 wakes the sleeping process `pSleep`; signals 5,
4 and 3 follow. -/
theorem sys_sigkill_wakes_once_witness :
    (cfg0.SIGMIN ≤ 3 ∧ 3 ≤ cfg0.SIGMAX ∧
      (∀ x, x ∈ [((5 : Nat), (0 : Int)), (4, 1), (3, 2)] →
        cfg0.SIGMIN ≤ x.1 ∧ x.1 ≤ cfg0.SIGMAX) ∧
      target [p0, pSleep] 9 = some pSleep ∧ pSleep.state = procstate.SLEEPING) ∧
    (sys_sigkill cfg0 [p0, pSleep] 9 (3 : Nat) 0).ret = 0 ∧
    ∃ t1, target (sys_sigkill cfg0 [p0, pSleep] 9 (3 : Nat) 0).pool 9 = some t1 ∧
      (pSleep.state = procstate.SLEEPING →
        t1.state = procstate.RUNNABLE ∧
        (sys_sigkill cfg0 [p0, pSleep] 9 (3 : Nat) 0).calls.filter isAddTask
          = [Call.add_task 9] ∧
        (∀ v, v ∈ (sigkill_seq cfg0 9 [(5, 0), (4, 1), (3, 2)]
          (sys_sigkill cfg0 [p0, pSleep] 9 (3 : Nat) 0).pool).1 → v = 0) ∧
        (sigkill_seq cfg0 9 [(5, 0), (4, 1), (3, 2)]
          (sys_sigkill cfg0 [p0, pSleep] 9 (3 : Nat) 0).pool).1.length
          = [((5 : Nat), (0 : Int)), (4, 1), (3, 2)].length ∧
        (sigkill_seq cfg0 9 [(5, 0), (4, 1), (3, 2)]
          (sys_sigkill cfg0 [p0, pSleep] 9 (3 : Nat) 0).pool).2.2.filter isAddTask = [] ∧
        ∃ t2, target (sigkill_seq cfg0 9 [(5, 0), (4, 1), (3, 2)]
            (sys_sigkill cfg0 [p0, pSleep] 9 (3 : Nat) 0).pool).2.1 9
            = some t2 ∧ t2.state = procstate.RUNNABLE) ∧
      (pSleep.state ≠ procstate.SLEEPING →
        t1.state = pSleep.state ∧
        (sys_sigkill cfg0 [p0, pSleep] 9 (3 : Nat) 0).calls.filter isAddTask = []) :=
  ⟨⟨by decide, by decide, by decide, rfl, rfl⟩,
    sys_sigkill_wakes_once cfg0 [p0, pSleep] 9 3 0 [(5, 0), (4, 1), (3, 2)] pSleep
      (by decide) (by decide) (by decide) rfl⟩

/-- C13 fails on the code: `sys_sigkill` does not use its argument `code` and
does not write `siginfos`. After a successful raise the payload entry of the
target, for every signal number, is what it was before, and a raise with
another code gives the same result. -/
theorem sys_sigkill_ignores_code (c : Config) (pool : List proc) (pid : Int) (n : Nat)
    (code code2 : Int) (t : proc) (h1 : c.SIGMIN ≤ n) (h2 : n ≤ c.SIGMAX)
    (ht : target pool pid = some t) :
    (sys_sigkill c pool pid n code).ret = 0 ∧
    (∃ t1, target (sys_sigkill c pool pid n code).pool pid = some t1 ∧
      t1.signal.siginfos = t.signal.siginfos) ∧
    sys_sigkill c pool pid n code2 = sys_sigkill c pool pid n code ∧
    (sys_sigkill c (sys_sigkill c pool pid n code).pool pid n code2).ret = 0 ∧
    ∃ t2, target (sys_sigkill c (sys_sigkill c pool pid n code).pool pid n code2).pool pid
        = some t2 ∧
      t2.signal.siginfos = t.signal.siginfos := by
  obtain ⟨pre, post, _, e2, e3, e4⟩ := sys_sigkill_hit c pool pid n code h1 h2 t ht
  have ht1 : target (sys_sigkill c pool pid n code).pool pid = some (raise_on c t n).1 := by
    rw [e4]
    exact target_of_split pid pre _ _ e2 (by rw [raise_on_pid]; exact e3)
  obtain ⟨pre2, post2, _, f2, f3, f4⟩ :=
    sys_sigkill_hit c (sys_sigkill c pool pid n code).pool pid n code2 h1 h2 _ ht1
  refine ⟨by rw [e4], ⟨_, ht1, raise_on_siginfos c t n⟩, rfl, by rw [f4],
    (raise_on c (raise_on c t n).1 n).1, ?_, ?_⟩
  · rw [f4]
    exact target_of_split pid pre2 _ _ f2 (by rw [raise_on_pid]; exact f3)
  · rw [raise_on_siginfos, raise_on_siginfos]

/-- Witness of C13: signal 3 raised on the process `pInit` with code 42 and
then with code 43; the payload entry stays the zero bytes that `siginit`
left. -/
theorem sys_sigkill_ignores_code_witness :
    (cfg0.SIGMIN ≤ 3 ∧ 3 ≤ cfg0.SIGMAX ∧ target [pInit] 7 = some pInit ∧
      pInit.signal.siginfos 3 = List.replicate 24 0) ∧
    (sys_sigkill cfg0 [pInit] 7 (3 : Nat) 42).ret = 0 ∧
    (∃ t1, target (sys_sigkill cfg0 [pInit] 7 (3 : Nat) 42).pool 7 = some t1 ∧
      t1.signal.siginfos = pInit.signal.siginfos) ∧
    sys_sigkill cfg0 [pInit] 7 (3 : Nat) 43 = sys_sigkill cfg0 [pInit] 7 (3 : Nat) 42 ∧
    (sys_sigkill cfg0 (sys_sigkill cfg0 [pInit] 7 (3 : Nat) 42).pool 7 (3 : Nat) 43).ret = 0 ∧
    ∃ t2, target (sys_sigkill cfg0 (sys_sigkill cfg0 [pInit] 7 (3 : Nat) 42).pool 7
        (3 : Nat) 43).pool 7 = some t2 ∧
      t2.signal.siginfos = pInit.signal.siginfos :=
  ⟨⟨by decide, by decide, rfl, rfl⟩,
    sys_sigkill_ignores_code cfg0 [pInit] 7 3 42 43 pInit (by decide) (by decide) rfl⟩

/-- C14: for a signal number below `SIGMIN`, above `SIGMAX` or equal to
`SIGKILL` or `SIGSTOP`, and for every `act` and `oldact`, null or not,
`sys_sigaction` returns `-EINVAL` and leaves the process, with its
disposition table, masks and user memory, as it is; the result does not depend
on what user memory holds or maps, no copy is made. -/
theorem sys_sigaction_rejects (c : Config) (p : proc) (signo : Int) (act oldact : Nat)
    (h : signo < c.SIGMIN ∨ signo > c.SIGMAX ∨ signo = c.SIGKILL ∨ signo = c.SIGSTOP) :
    sys_sigaction c p signo act oldact = ⟨-(c.EINVAL : Int), p, []⟩ := by
  unfold sys_sigaction
  by_cases h1 : signo < c.SIGMIN ∨ signo > c.SIGMAX
  · rw [if_pos h1]
  · rw [if_neg h1]
    have h2 : signo = c.SIGKILL ∨ signo = c.SIGSTOP := by
      rcases h with h | h | h | h
      · exact absurd (Or.inl h) h1
      · exact absurd (Or.inr h) h1
      · exact Or.inl h
      · exact Or.inr h
    rw [if_pos h2]

/-- Witness of C14: the stop signal 7 with both pointers given, on a process
without mapped memory. -/
theorem sys_sigaction_rejects_witness :
    (((7 : Int) < cfg0.SIGMIN ∨ (7 : Int) > cfg0.SIGMAX ∨ (7 : Int) = cfg0.SIGKILL ∨
      (7 : Int) = cfg0.SIGSTOP)) ∧
    sys_sigaction cfg0 pFault 7 512 1024 = ⟨-(cfg0.EINVAL : Int), pFault, []⟩ :=
  ⟨by decide, sys_sigaction_rejects cfg0 pFault 7 512 1024 (by decide)⟩

theorem length_encodeSigaction (sa : sigaction_t) :
    (encodeSigaction sa).length = SIGACTION_SIZE := by
  unfold encodeSigaction
  rw [length_flatMap_encodeWord]
  rfl

theorem decodeSigaction_encodeSigaction (sa : sigaction_t) (h : sigactionWordSized sa) :
    decodeSigaction (encodeSigaction sa) = sa := by
  obtain ⟨h1, h2, h3⟩ := h
  have e0 := wordAt_flatMap [sa.sa_sigaction, sa.sa_mask, sa.sa_restorer] 0 (by simp)
  have e1 := wordAt_flatMap [sa.sa_sigaction, sa.sa_mask, sa.sa_restorer] 1 (by simp)
  have e2 := wordAt_flatMap [sa.sa_sigaction, sa.sa_mask, sa.sa_restorer] 2 (by simp)
  simp only [List.getD_cons_zero, List.getD_cons_succ] at e0 e1 e2
  rw [Nat.mod_eq_of_lt h1] at e0
  rw [Nat.mod_eq_of_lt h2] at e1
  rw [Nat.mod_eq_of_lt h3] at e2
  unfold decodeSigaction encodeSigaction
  rw [e0, e1, e2]

theorem nat_signo (c : Config) (n : Nat) (h1 : c.SIGMIN ≤ n) (h2 : n ≤ c.SIGMAX) :
    ¬ ((n : Int) < c.SIGMIN ∨ (n : Int) > c.SIGMAX) := by
  omega

/-- C16: for a valid signal number other than the two privileged ones, with
`oldact` and `act` given at regions that do not overlap: when both copies
succeed `sys_sigaction` returns 0, the region at `oldact` holds the entry the
table had before the call, the entry of the signal is the value stored at
`act`, and every other entry, the blocked mask and the pending mask are
unchanged; when the copy to `oldact` faults it returns `-EFAULT` and the
process, its table included, is unchanged. -/
theorem sys_sigaction_read_then_write (c : Config) (p : proc) (n act oldact : Nat)
    (h1 : c.SIGMIN ≤ n) (h2 : n ≤ c.SIGMAX) (hk : n ≠ c.SIGKILL) (hs : n ≠ c.SIGSTOP)
    (ho : oldact ≠ 0) (ha : act ≠ 0)
    (hdis : oldact + SIGACTION_SIZE ≤ act ∨ act + SIGACTION_SIZE ≤ oldact) :
    (actionCopiesOk p n act oldact = true →
      (sys_sigaction c p n act oldact).ret = 0 ∧
      readBytes (sys_sigaction c p n act oldact).p.mm.bytes oldact SIGACTION_SIZE
        = encodeSigaction (p.signal.sa n) ∧
      (sigactionWordSized (p.signal.sa n) →
        decodeSigaction
            (readBytes (sys_sigaction c p n act oldact).p.mm.bytes oldact SIGACTION_SIZE)
          = p.signal.sa n) ∧
      (sys_sigaction c p n act oldact).p.signal.sa n
        = decodeSigaction (readBytes p.mm.bytes act SIGACTION_SIZE) ∧
      readBytes (sys_sigaction c p n act oldact).p.mm.bytes act SIGACTION_SIZE
        = readBytes p.mm.bytes act SIGACTION_SIZE ∧
      (∀ i, i ≠ n → (sys_sigaction c p n act oldact).p.signal.sa i = p.signal.sa i) ∧
      (sys_sigaction c p n act oldact).p.signal.sigmask = p.signal.sigmask ∧
      (sys_sigaction c p n act oldact).p.signal.sigpending = p.signal.sigpending) ∧
    (copy_to_user p.mm oldact (encodeSigaction (p.signal.sa n)) = none →
      sys_sigaction c p n act oldact = ⟨-(c.EFAULT : Int), p, []⟩) := by
  have hv := nat_signo c n h1 h2
  have hp : ¬ ((n : Int) = c.SIGKILL ∨ (n : Int) = c.SIGSTOP) := by omega
  constructor
  · intro hok
    unfold actionCopiesOk at hok
    cases hc1 : copy_to_user p.mm oldact (encodeSigaction (p.signal.sa n)) with
    | none => rw [hc1] at hok; exact Bool.noConfusion hok
    | some mm1 =>
      rw [hc1] at hok
      simp only at hok
      cases hc2 : copy_from_user mm1 act SIGACTION_SIZE with
      | none => rw [hc2] at hok; exact Bool.noConfusion hok
      | some bs =>
        obtain ⟨_, _, hb1⟩ := copy_to_user_some hc1
        have hbs : bs = readBytes mm1.bytes act SIGACTION_SIZE := by
          unfold copy_from_user at hc2
          by_cases hm : rangeMapped mm1 act SIGACTION_SIZE = true
          · rw [if_pos hm] at hc2
            exact (Option.some.inj hc2).symm
          · rw [if_neg hm] at hc2
            exact Option.noConfusion hc2
        have hact : readBytes mm1.bytes act SIGACTION_SIZE
            = readBytes p.mm.bytes act SIGACTION_SIZE := by
          rw [hb1]
          apply readBytes_writeBytes_disjoint
          rw [length_encodeSigaction]
          omega
        have hold : readBytes mm1.bytes oldact SIGACTION_SIZE
            = encodeSigaction (p.signal.sa n) := by
          rw [hb1]
          have := readBytes_writeBytes_same p.mm.bytes oldact (encodeSigaction (p.signal.sa n))
          rw [length_encodeSigaction] at this
          exact this
        have hres : sys_sigaction c p n act oldact = ⟨0, { p with
            mm := mm1
            signal := { p.signal with sa := setEntry p.signal.sa n (decodeSigaction bs) } },
            []⟩ := by
          simp only [sys_sigaction, if_neg hv, if_neg hp, Int.toNat_ofNat, if_pos ho, hc1,
            if_pos ha, hc2]
        rw [hres]
        refine ⟨rfl, hold, ?_, ?_, hact, ?_, rfl, rfl⟩
        · intro hw
          show decodeSigaction (readBytes mm1.bytes oldact SIGACTION_SIZE) = _
          rw [hold]
          exact decodeSigaction_encodeSigaction _ hw
        · show setEntry p.signal.sa n (decodeSigaction bs) n = _
          rw [hbs, hact]
          simp [setEntry]
        · intro i hi
          show setEntry p.signal.sa n (decodeSigaction bs) i = _
          simp [setEntry, hi]
  · intro hc1
    simp only [sys_sigaction, if_neg hv, if_neg hp, Int.toNat_ofNat, if_pos ho, hc1]

/-- Witness of C16: the process `pAct` replaces the disposition of signal 3 by
the one stored at address 512 and has the old one written to address 1024; on
the process `pFault`, without mapped memory, the copy to `oldact` faults. -/
theorem sys_sigaction_read_then_write_witness :
    (cfg0.SIGMIN ≤ 3 ∧ 3 ≤ cfg0.SIGMAX ∧ 3 ≠ cfg0.SIGKILL ∧ 3 ≠ cfg0.SIGSTOP ∧
      (1024 + SIGACTION_SIZE ≤ 512 ∨ 512 + SIGACTION_SIZE ≤ 1024) ∧
      actionCopiesOk pAct 3 512 1024 = true ∧
      copy_to_user pFault.mm 1024 (encodeSigaction (pFault.signal.sa 3)) = none) ∧
    ((actionCopiesOk pAct (3 : Nat) 512 1024 = true →
      (sys_sigaction cfg0 pAct (3 : Nat) 512 1024).ret = 0 ∧
      readBytes (sys_sigaction cfg0 pAct (3 : Nat) 512 1024).p.mm.bytes 1024 SIGACTION_SIZE
        = encodeSigaction (pAct.signal.sa (3 : Nat)) ∧
      (sigactionWordSized (pAct.signal.sa (3 : Nat)) →
        decodeSigaction
            (readBytes (sys_sigaction cfg0 pAct (3 : Nat) 512 1024).p.mm.bytes 1024 SIGACTION_SIZE)
          = pAct.signal.sa (3 : Nat)) ∧
      (sys_sigaction cfg0 pAct (3 : Nat) 512 1024).p.signal.sa (3 : Nat)
        = decodeSigaction (readBytes pAct.mm.bytes 512 SIGACTION_SIZE) ∧
      readBytes (sys_sigaction cfg0 pAct (3 : Nat) 512 1024).p.mm.bytes 512 SIGACTION_SIZE
        = readBytes pAct.mm.bytes 512 SIGACTION_SIZE ∧
      (∀ i, i ≠ (3 : Nat) → (sys_sigaction cfg0 pAct (3 : Nat) 512 1024).p.signal.sa i = pAct.signal.sa i) ∧
      (sys_sigaction cfg0 pAct (3 : Nat) 512 1024).p.signal.sigmask = pAct.signal.sigmask ∧
      (sys_sigaction cfg0 pAct (3 : Nat) 512 1024).p.signal.sigpending = pAct.signal.sigpending) ∧
    (copy_to_user pAct.mm 1024 (encodeSigaction (pAct.signal.sa (3 : Nat))) = none →
      sys_sigaction cfg0 pAct (3 : Nat) 512 1024 = ⟨-(cfg0.EFAULT : Int), pAct, []⟩)) ∧
    sys_sigaction cfg0 pFault (3 : Nat) 512 1024 = ⟨-(cfg0.EFAULT : Int), pFault, []⟩ :=
  ⟨⟨by decide, by decide, by decide, by decide, by decide, by decide, rfl⟩,
    sys_sigaction_read_then_write cfg0 pAct 3 512 1024 (by decide) (by decide) (by decide)
      (by decide) (by decide) (by decide) (by decide),
    (sys_sigaction_read_then_write cfg0 pFault 3 512 1024 (by decide) (by decide) (by decide)
      (by decide) (by decide) (by decide) (by decide)).2 rfl⟩

theorem siginit_fork_sa (c : Config) (parent child : proc) (i : Nat) (hi : i ≤ c.SIGMAX) :
    (siginit_fork c parent child).p.signal.sa i = parent.signal.sa i := by
  show (if i ≤ c.SIGMAX then parent.signal.sa i else child.signal.sa i) = _
  rw [if_pos hi]

/-- C17: after `siginit_fork` every entry of the table of the child, with its
action, extra mask and trampoline, and the blocked mask of the child equal
those of the parent, the pending mask of the child is empty whatever the
parent has pending, and the result is 0. The parent is only read: the one
process the function writes is the child. -/
theorem siginit_fork_copies (c : Config) (parent child : proc) :
    (siginit_fork c parent child).ret = 0 ∧ (siginit_fork c parent child).calls = [] ∧
    (∀ i, i ≤ c.SIGMAX → (siginit_fork c parent child).p.signal.sa i = parent.signal.sa i) ∧
    (siginit_fork c parent child).p.signal.sigmask = parent.signal.sigmask ∧
    (siginit_fork c parent child).p.signal.sigpending = 0 ∧
    (siginit_fork c parent child).p.pid = child.pid ∧
    (siginit_fork c parent child).p.trapframe = child.trapframe ∧
    (siginit_fork c parent child).p.mm = child.mm := by
  exact ⟨rfl, rfl, fun i hi => siginit_fork_sa c parent child i hi, rfl, rfl, rfl, rfl, rfl⟩

/-- Witness of C17: the parent `p0` has signals 2, 5 and 6 pending and signal
5 blocked; the child is `pInit`. -/
theorem siginit_fork_copies_witness :
    p0.signal.sigpending = 100 ∧
    (siginit_fork cfg0 p0 pInit).ret = 0 ∧ (siginit_fork cfg0 p0 pInit).calls = [] ∧
    (∀ i, i ≤ cfg0.SIGMAX → (siginit_fork cfg0 p0 pInit).p.signal.sa i = p0.signal.sa i) ∧
    (siginit_fork cfg0 p0 pInit).p.signal.sigmask = p0.signal.sigmask ∧
    (siginit_fork cfg0 p0 pInit).p.signal.sigpending = 0 ∧
    (siginit_fork cfg0 p0 pInit).p.pid = pInit.pid ∧
    (siginit_fork cfg0 p0 pInit).p.trapframe = pInit.trapframe ∧
    (siginit_fork cfg0 p0 pInit).p.mm = pInit.mm :=
  ⟨rfl, siginit_fork_copies cfg0 p0 pInit⟩

theorem foldl_reset (ign : Nat) (dfl : sigaction_t) (l : List Nat) :
    ∀ (tbl : Nat → sigaction_t) (j : Nat),
      (l.foldl (fun acc i => if (acc i).sa_sigaction ≠ ign then setEntry acc i dfl else acc)
        tbl) j = if j ∈ l ∧ (tbl j).sa_sigaction ≠ ign then dfl else tbl j := by
  induction l with
  | nil => intro tbl j; simp
  | cons a l ih =>
    intro tbl j
    rw [List.foldl_cons, ih]
    by_cases ha : (tbl a).sa_sigaction ≠ ign
    · rw [if_pos ha]
      by_cases hj : j = a
      · subst hj
        have h1 : setEntry tbl j dfl j = dfl := by simp [setEntry]
        have h0 : j ∈ j :: l ∧ (tbl j).sa_sigaction ≠ ign := ⟨List.mem_cons_self _ _, ha⟩
        rw [h1, if_pos h0]
        by_cases h2 : j ∈ l ∧ dfl.sa_sigaction ≠ ign
        · rw [if_pos h2]
        · rw [if_neg h2]
      · have h1 : setEntry tbl a dfl j = tbl j := by simp [setEntry, hj]
        rw [h1]
        by_cases h2 : j ∈ l ∧ (tbl j).sa_sigaction ≠ ign
        · rw [if_pos h2, if_pos ⟨List.mem_cons_of_mem _ h2.1, h2.2⟩]
        · rw [if_neg h2, if_neg]
          intro h3
          rcases List.mem_cons.1 h3.1 with h | h
          · exact hj h
          · exact h2 ⟨h, h3.2⟩
    · rw [if_neg ha]
      by_cases h2 : j ∈ l ∧ (tbl j).sa_sigaction ≠ ign
      · rw [if_pos h2, if_pos ⟨List.mem_cons_of_mem _ h2.1, h2.2⟩]
      · rw [if_neg h2, if_neg]
        intro h3
        rcases List.mem_cons.1 h3.1 with h | h
        · rw [h] at h3; exact ha h3.2
        · exact h2 ⟨h, h3.2⟩

theorem siginit_exec_sa (c : Config) (p : proc) (i : Nat) :
    (siginit_exec c p).p.signal.sa i =
      if (c.SIGMIN ≤ i ∧ i ≤ c.SIGMAX) ∧ (p.signal.sa i).sa_sigaction ≠ c.SIG_IGN
      then ⟨c.SIG_DFL, 0, 0⟩ else p.signal.sa i := by
  show (forRange c.SIGMIN c.SIGMAX
    (fun i tbl => if (tbl i).sa_sigaction ≠ c.SIG_IGN
      then setEntry tbl i (sigaction_t.mk c.SIG_DFL 0 0) else tbl) p.signal.sa) i = _
  unfold forRange
  rw [foldl_reset]
  simp only [List.mem_range'_1]
  by_cases h : (c.SIGMIN ≤ i ∧ i ≤ c.SIGMAX) ∧ (p.signal.sa i).sa_sigaction ≠ c.SIG_IGN
  · rw [if_pos h, if_pos ⟨⟨h.1.1, by omega⟩, h.2⟩]
  · rw [if_neg h, if_neg (fun h2 => h ⟨⟨h2.1.1, by omega⟩, h2.2⟩)]

/-- C18: after `siginit_exec` every entry of `[SIGMIN, SIGMAX]` whose action
was `SIG_IGN` is as before, action, extra mask and trampoline; every other
entry of that range has action `SIG_DFL`, extra mask 0 and no trampoline; the
entries outside the range, the blocked mask and the pending mask are
unchanged, and the result is 0. -/
theorem siginit_exec_resets (c : Config) (p : proc) :
    (siginit_exec c p).ret = 0 ∧ (siginit_exec c p).calls = [] ∧
    (∀ i, c.SIGMIN ≤ i → i ≤ c.SIGMAX → (p.signal.sa i).sa_sigaction = c.SIG_IGN →
      (siginit_exec c p).p.signal.sa i = p.signal.sa i) ∧
    (∀ i, c.SIGMIN ≤ i → i ≤ c.SIGMAX → (p.signal.sa i).sa_sigaction ≠ c.SIG_IGN →
      (siginit_exec c p).p.signal.sa i = ⟨c.SIG_DFL, 0, 0⟩) ∧
    (∀ i, ¬ (c.SIGMIN ≤ i ∧ i ≤ c.SIGMAX) →
      (siginit_exec c p).p.signal.sa i = p.signal.sa i) ∧
    (siginit_exec c p).p.signal.sigmask = p.signal.sigmask ∧
    (siginit_exec c p).p.signal.sigpending = p.signal.sigpending := by
  refine ⟨rfl, rfl, ?_, ?_, ?_, rfl, rfl⟩
  · intro i _ _ h3
    rw [siginit_exec_sa, if_neg (fun h => h.2 h3)]
  · intro i h1 h2 h3
    rw [siginit_exec_sa, if_pos ⟨⟨h1, h2⟩, h3⟩]
  · intro i h
    rw [siginit_exec_sa, if_neg (fun h2 => h h2.1)]

/-- Witness of C18 at the process `pHandlers`: the ignored signal 3 keeps its
extra mask 12 and trampoline 7000, the handler of signal 2 is reset. -/
theorem siginit_exec_resets_witness :
    ((pHandlers.signal.sa 3).sa_sigaction = cfg0.SIG_IGN ∧
      (pHandlers.signal.sa 2).sa_sigaction ≠ cfg0.SIG_IGN) ∧
    (siginit_exec cfg0 pHandlers).p.signal.sa 3 = ⟨1, 12, 7000⟩ ∧
    (siginit_exec cfg0 pHandlers).p.signal.sa 2 = ⟨0, 0, 0⟩ ∧
    (siginit_exec cfg0 pHandlers).p.signal.sigmask = 32 ∧
    (siginit_exec cfg0 pHandlers).p.signal.sigpending = 100 := by
  obtain ⟨_, _, h3, h4, _, h6, h7⟩ := siginit_exec_resets cfg0 pHandlers
  refine ⟨⟨by decide, by decide⟩, ?_, ?_, ?_, ?_⟩
  · rw [h3 3 (by decide) (by decide) (by decide)]; rfl
  · rw [h4 2 (by decide) (by decide) (by decide)]; rfl
  · rw [h6]; rfl
  · rw [h7]; rfl

/-- C20: when the selected signal `s` has a custom handler and a frame write
fails, `do_signal` returns `-EFAULT` with the trap frame not rolled back: `sp`
is the previous `sp` minus `sizeof(struct ucontext) + sizeof(siginfo_t)`,
`a0` is `s`, `a1` is the previous `sp` minus `sizeof(siginfo_t)`, `a2` is the
new `sp`, and every other register has its value from before the call. The
subtractions are those of 64-bit words: the new `sp` plus the frame size, and
`a1` plus `sizeof(siginfo_t)`, give the previous `sp` modulo `2^64`, and when
the frame fits below the previous `sp` they are plain differences. -/
theorem do_signal_fault_frame (c : Config) (p : proc) (hc : c.wf)
    (hd : deliverable p ≠ 0) (hs : selected c p ≤ c.SIGMAX)
    (hh : customHandler c p (selected c p))
    (hw : frameWritesOk c p (selected c p) = false) :
    ∃ o, do_signal c p = some o ∧ o.ret = -(c.EFAULT : Int) ∧
      o.p.trapframe = { p.trapframe with
        sp := sub64 p.trapframe.sp (UCONTEXT_SIZE + c.SIGINFO_SIZE)
        a0 := selected c p
        a1 := sub64 p.trapframe.sp c.SIGINFO_SIZE
        a2 := sub64 p.trapframe.sp (UCONTEXT_SIZE + c.SIGINFO_SIZE) } ∧
      o.p.trapframe.a2 = o.p.trapframe.sp ∧
      o.p.trapframe.a0 = selected c p ∧
      (o.p.trapframe.sp < WORD ∧
        (o.p.trapframe.sp + (UCONTEXT_SIZE + c.SIGINFO_SIZE)) % WORD
          = p.trapframe.sp % WORD) ∧
      (o.p.trapframe.a1 < WORD ∧
        (o.p.trapframe.a1 + c.SIGINFO_SIZE) % WORD = p.trapframe.sp % WORD) ∧
      (UCONTEXT_SIZE + c.SIGINFO_SIZE ≤ p.trapframe.sp → p.trapframe.sp < WORD →
        o.p.trapframe.sp = p.trapframe.sp - (UCONTEXT_SIZE + c.SIGINFO_SIZE) ∧
        o.p.trapframe.a1 = p.trapframe.sp - c.SIGINFO_SIZE ∧
        o.p.trapframe.a2 = p.trapframe.sp - (UCONTEXT_SIZE + c.SIGINFO_SIZE) ∧
        o.p.trapframe.sp < p.trapframe.sp) := by
  obtain ⟨mm1, _, h⟩ := do_signal_handler_fault c p hd hs hh hw
  have hsp : frame_sp c p = sub64 p.trapframe.sp (UCONTEXT_SIZE + c.SIGINFO_SIZE) := by
    unfold frame_sp sub64 add64 UCONTEXT_SIZE WORD; omega
  have ha2 : sub64 (sub64 p.trapframe.sp c.SIGINFO_SIZE) UCONTEXT_SIZE
      = sub64 p.trapframe.sp (UCONTEXT_SIZE + c.SIGINFO_SIZE) := by
    unfold sub64 UCONTEXT_SIZE WORD; omega
  have hsize := hc.2.2.2
  refine ⟨_, h, rfl, ?_, ?_, selected_lt_word c hc p hs, ⟨?_, ?_⟩, ⟨?_, ?_⟩, ?_⟩
  · simp only [selected_lt_word c hc p hs, ha2, hsp]
  · show sub64 (sub64 p.trapframe.sp c.SIGINFO_SIZE) UCONTEXT_SIZE = frame_sp c p
    rw [ha2, hsp]
  · show frame_sp c p < WORD
    unfold frame_sp sub64 WORD
    omega
  · show (frame_sp c p + (UCONTEXT_SIZE + c.SIGINFO_SIZE)) % WORD = _
    unfold frame_sp sub64 add64 UCONTEXT_SIZE WORD at *
    omega
  · show sub64 p.trapframe.sp c.SIGINFO_SIZE < WORD
    unfold sub64 WORD
    omega
  · show (sub64 p.trapframe.sp c.SIGINFO_SIZE + c.SIGINFO_SIZE) % WORD = _
    unfold sub64 WORD
    omega
  · intro hge hlt
    show frame_sp c p = _ ∧ sub64 p.trapframe.sp c.SIGINFO_SIZE = _ ∧
      sub64 (sub64 p.trapframe.sp c.SIGINFO_SIZE) UCONTEXT_SIZE = _ ∧ frame_sp c p < _
    unfold frame_sp sub64 add64 UCONTEXT_SIZE WORD at *
    omega

/-- Witness of C20 at the process `pFault`, whose stack is not mapped: `sp`
goes from 4096 to 3808, `a0` is 2, `a1` is 4072 and `a2` is 3808. -/
theorem do_signal_fault_frame_witness :
    (cfg0.wf ∧ deliverable pFault ≠ 0 ∧ selected cfg0 pFault ≤ cfg0.SIGMAX ∧
      customHandler cfg0 pFault (selected cfg0 pFault) ∧
      frameWritesOk cfg0 pFault (selected cfg0 pFault) = false ∧
      UCONTEXT_SIZE + cfg0.SIGINFO_SIZE ≤ pFault.trapframe.sp ∧ pFault.trapframe.sp < WORD) ∧
    pFault.trapframe =
      ⟨100, 1, 4096, 3, 4, 5, 6, 7, 8, 9, 10, 11, 12, 13, 14, 15, 16, 17, 18, 19, 20, 21, 22,
        23, 24, 25, 26, 27, 28, 29, 30, 31⟩ ∧
    ∃ o, do_signal cfg0 pFault = some o ∧ o.ret = -14 ∧
      o.p.trapframe =
        ⟨100, 1, 3808, 3, 4, 5, 6, 7, 8, 9, 2, 4072, 3808, 13, 14, 15, 16, 17, 18, 19, 20, 21,
          22, 23, 24, 25, 26, 27, 28, 29, 30, 31⟩ ∧
      o.p.trapframe.sp = 3808 ∧ o.p.trapframe.a0 = 2 ∧ o.p.trapframe.a1 = 4072 ∧
      o.p.trapframe.a2 = 3808 := by
  refine ⟨⟨by decide, by decide, by decide, by decide, by decide, by decide, by decide⟩,
    rfl, ?_⟩
  obtain ⟨o, ho, hret, htf, _, ha0, _, _, hlit⟩ :=
    do_signal_fault_frame cfg0 pFault (by decide) (by decide) (by decide) (by decide)
      (by decide)
  obtain ⟨e1, e2, e3, _⟩ := hlit (by decide) (by decide)
  exact ⟨o, ho, hret, htf.trans rfl, e1, ha0.trans (by decide), e2, e3⟩

/-! ## Reachable states -/

theorem sys_sigaction_signal (c : Config) (p : proc) (signo : Int) (act oldact : Nat) :
    (sys_sigaction c p signo act oldact).p.signal.sigpending = p.signal.sigpending ∧
    (sys_sigaction c p signo act oldact).p.signal.sigmask = p.signal.sigmask ∧
    ∀ k : Nat, (k : Int) ≠ signo ∨ k = c.SIGKILL ∨ k = c.SIGSTOP →
      (sys_sigaction c p signo act oldact).p.signal.sa k = p.signal.sa k := by
  generalize hres : sys_sigaction c p signo act oldact = r
  unfold sys_sigaction at hres
  by_cases h1 : signo < c.SIGMIN ∨ signo > c.SIGMAX
  · rw [if_pos h1] at hres; subst hres; exact ⟨rfl, rfl, fun _ _ => rfl⟩
  · rw [if_neg h1] at hres
    by_cases h2 : signo = c.SIGKILL ∨ signo = c.SIGSTOP
    · rw [if_pos h2] at hres; subst hres; exact ⟨rfl, rfl, fun _ _ => rfl⟩
    · rw [if_neg h2] at hres
      have hne : ∀ k : Nat, (k : Int) ≠ signo ∨ k = c.SIGKILL ∨ k = c.SIGSTOP →
          k ≠ signo.toNat := by
        intro k hk
        omega
      have hset : ∀ (v : sigaction_t) (k : Nat),
          (k : Int) ≠ signo ∨ k = c.SIGKILL ∨ k = c.SIGSTOP →
          setEntry p.signal.sa signo.toNat v k = p.signal.sa k := by
        intro v k hk
        simp [setEntry, hne k hk]
      by_cases ho : oldact ≠ 0
      · cases hc1 : copy_to_user p.mm oldact (encodeSigaction (p.signal.sa signo.toNat)) with
        | none =>
          simp only [if_pos ho, hc1] at hres
          subst hres; exact ⟨rfl, rfl, fun _ _ => rfl⟩
        | some mm1 =>
          by_cases ha : act ≠ 0
          · cases hc2 : copy_from_user mm1 act SIGACTION_SIZE with
            | none =>
              simp only [if_pos ho, hc1, if_pos ha, hc2] at hres
              subst hres; exact ⟨rfl, rfl, fun _ _ => rfl⟩
            | some bs =>
              simp only [if_pos ho, hc1, if_pos ha, hc2] at hres
              subst hres; exact ⟨rfl, rfl, hset _⟩
          · simp only [if_pos ho, hc1, if_neg ha] at hres
            subst hres; exact ⟨rfl, rfl, fun _ _ => rfl⟩
      · by_cases ha : act ≠ 0
        · cases hc2 : copy_from_user p.mm act SIGACTION_SIZE with
          | none =>
            simp only [if_neg ho, if_pos ha, hc2] at hres
            subst hres; exact ⟨rfl, rfl, fun _ _ => rfl⟩
          | some bs =>
            simp only [if_neg ho, if_pos ha, hc2] at hres
            subst hres; exact ⟨rfl, rfl, hset _⟩
        · simp only [if_neg ho, if_neg ha] at hres
          subst hres; exact ⟨rfl, rfl, fun _ _ => rfl⟩

theorem sys_sigreturn_signal (c : Config) (p : proc) :
    (sys_sigreturn c p).p.signal.sigpending = p.signal.sigpending ∧
    (sys_sigreturn c p).p.signal.sa = p.signal.sa := by
  generalize hres : sys_sigreturn c p = r
  unfold sys_sigreturn at hres
  cases hc : copy_from_user p.mm p.trapframe.sp UCONTEXT_SIZE with
  | none =>
    simp only [hc] at hres
    subst hres; exact ⟨rfl, rfl⟩
  | some bs =>
    simp only [hc] at hres
    subst hres; exact ⟨rfl, rfl⟩

theorem do_signal_signal (c : Config) (p : proc) (o : Outcome) (h : do_signal c p = some o) :
    o.p.signal.sa = p.signal.sa ∧
    (o.p.signal.sigpending = p.signal.sigpending ∨
      o.p.signal.sigpending = p.signal.sigpending &&& not64 (sigmask (selected c p))) := by
  by_cases hd : deliverable p = 0
  · have h0 : do_signal c p = some ⟨0, p, []⟩ := by
      unfold deliverable at hd
      simp only [do_signal, if_pos hd]
    rw [h0] at h
    cases h
    exact ⟨rfl, Or.inl rfl⟩
  · by_cases hs : selected c p ≤ c.SIGMAX
    · obtain ⟨o2, ho2, hp, hsa, _⟩ := do_signal_some c p hd hs
      rw [ho2] at h
      cases h
      exact ⟨hsa, Or.inr hp⟩
    · have hnone : do_signal c p = none := by
        unfold selected deliverable at *
        simp only [do_signal, if_neg hd, if_pos (Nat.lt_of_not_le hs)]
      rw [hnone] at h
      exact Option.noConfusion h

theorem sigkill_scan_mem (c : Config) (pid : Int) (n : Nat) :
    ∀ (pool pool1 : List proc) (calls : List Call),
      sigkill_scan c pid n pool = some (pool1, calls) →
      ∀ q, q ∈ pool1 → q ∈ pool ∨ ∃ t, t ∈ pool ∧ q = (raise_on c t n).1 := by
  intro pool
  induction pool with
  | nil => intro pool1 calls h; exact Option.noConfusion h
  | cons a rest ih =>
    intro pool1 calls h q hq
    unfold sigkill_scan at h
    by_cases ha : a.pid = pid
    · rw [if_pos ha] at h
      cases h
      rcases List.mem_cons.1 hq with e | e
      · exact Or.inr ⟨a, List.mem_cons_self _ _, e⟩
      · exact Or.inl (List.mem_cons_of_mem _ e)
    · rw [if_neg ha] at h
      cases hr : sigkill_scan c pid n rest with
      | none => rw [hr] at h; exact Option.noConfusion h
      | some r =>
        obtain ⟨rest1, calls1⟩ := r
        rw [hr] at h
        cases h
        rcases List.mem_cons.1 hq with e | e
        · exact Or.inl (by rw [e]; exact List.mem_cons_self _ _)
        · rcases ih _ _ hr q e with h1 | ⟨t, ht, hqt⟩
          · exact Or.inl (List.mem_cons_of_mem _ h1)
          · exact Or.inr ⟨t, List.mem_cons_of_mem _ ht, hqt⟩

theorem sys_sigkill_mem (c : Config) (pool : List proc) (pid signo code : Int) (q : proc)
    (hq : q ∈ (sys_sigkill c pool pid signo code).pool) :
    q ∈ pool ∨ ∃ t n, t ∈ pool ∧ c.SIGMIN ≤ n ∧ n ≤ c.SIGMAX ∧ q = (raise_on c t n).1 := by
  unfold sys_sigkill at hq
  by_cases h1 : signo < c.SIGMIN ∨ signo > c.SIGMAX
  · rw [if_pos h1] at hq; exact Or.inl hq
  · rw [if_neg h1] at hq
    cases hr : sigkill_scan c pid signo.toNat pool with
    | none => rw [hr] at hq; exact Or.inl hq
    | some r =>
      obtain ⟨pool1, calls⟩ := r
      rw [hr] at hq
      rcases sigkill_scan_mem c pid signo.toNat pool pool1 calls hr q hq with h | ⟨t, ht, hqt⟩
      · exact Or.inl h
      · exact Or.inr ⟨t, signo.toNat, ht, by omega, by omega, hqt⟩

/-- The disposition of a privileged signal of the range is the default one in
every reachable state. -/
theorem reachable_privileged (c : Config) (k : Nat) (hk : k = c.SIGKILL ∨ k = c.SIGSTOP)
    (h1 : c.SIGMIN ≤ k) (h2 : k ≤ c.SIGMAX) (p : proc) (h : Reachable c p) :
    (p.signal.sa k).sa_sigaction = c.SIG_DFL := by
  induction h with
  | init p => rw [siginit_sa, if_pos ⟨h1, h2⟩]
  | env p tf mm st _ ih => exact ih
  | sigaction p signo act oldact _ ih =>
    rw [(sys_sigaction_signal c p signo act oldact).2.2 k (Or.inr hk)]
    exact ih
  | deliver p o _ ho ih =>
    rw [(do_signal_signal c p o ho).1]
    exact ih
  | sigreturn p _ ih =>
    rw [(sys_sigreturn_signal c p).2]
    exact ih
  | sigkill pool pid signo code q _ hq ih =>
    rcases sys_sigkill_mem c pool pid signo code q hq with hm | ⟨t, n, ht, _, _, e⟩
    · exact ih q hm
    · rw [e, raise_on_sa]
      exact ih t ht
  | exec p _ ih =>
    rw [siginit_exec_sa]
    by_cases hx : (c.SIGMIN ≤ k ∧ k ≤ c.SIGMAX) ∧ (p.signal.sa k).sa_sigaction ≠ c.SIG_IGN
    · rw [if_pos hx]
    · rw [if_neg hx]
      exact ih
  | fork parent child _ ih =>
    rw [siginit_fork_sa c parent child k h2]
    exact ih

/-- C15: in every state reachable from `siginit` by `sys_sigaction`,
`do_signal`, `sys_sigreturn`, `sys_sigkill`, `siginit_exec` and
`siginit_fork`, the disposition entries of `SIGKILL` and `SIGSTOP` have the
action `SIG_DFL`. -/
theorem privileged_stay_default (c : Config) (hp : c.wfPrivileged) (p : proc)
    (h : Reachable c p) :
    (p.signal.sa c.SIGKILL).sa_sigaction = c.SIG_DFL ∧
    (p.signal.sa c.SIGSTOP).sa_sigaction = c.SIG_DFL :=
  ⟨reachable_privileged c c.SIGKILL (Or.inl rfl) hp.1.1 hp.1.2 p h,
    reachable_privileged c c.SIGSTOP (Or.inr rfl) hp.2.1 hp.2.2 p h⟩

/-- Witness of C15: the process `pInstalled`, which has installed a handler
for signal 3, after a `sys_sigaction` for the kill signal 4. -/
theorem privileged_stay_default_witness :
    (cfg0.wfPrivileged ∧ Reachable cfg0 (sys_sigaction cfg0 pInstalled 4 512 0).p ∧
      (pInstalled.signal.sa 3).sa_sigaction = 9000) ∧
    ((sys_sigaction cfg0 pInstalled 4 512 0).p.signal.sa cfg0.SIGKILL).sa_sigaction
      = cfg0.SIG_DFL ∧
    ((sys_sigaction cfg0 pInstalled 4 512 0).p.signal.sa cfg0.SIGSTOP).sa_sigaction
      = cfg0.SIG_DFL :=
  ⟨⟨by decide,
      Reachable.sigaction _ 4 512 0 (Reachable.sigaction _ 3 512 0 (Reachable.init pAct)),
      by decide⟩,
    privileged_stay_default cfg0 (by decide) _
      (Reachable.sigaction _ 4 512 0 (Reachable.sigaction _ 3 512 0 (Reachable.init pAct)))⟩

theorem inRange_clear (c : Config) (set s : Nat) (h : inRange c set) :
    inRange c (set &&& not64 (sigmask s)) := by
  intro i hi
  rw [Nat.testBit_and] at hi
  simp only [Bool.and_eq_true] at hi
  exact h i hi.1

theorem inRange_raise (c : Config) (hc : c.wf) (set n : Nat) (h : inRange c set)
    (h1 : c.SIGMIN ≤ n) (h2 : n ≤ c.SIGMAX) : inRange c (set ||| sigmask n) := by
  intro i hi
  rw [sigmask_eq (Nat.lt_of_le_of_lt h2 hc.2.1), Nat.testBit_or, Nat.testBit_two_pow] at hi
  simp only [Bool.or_eq_true, decide_eq_true_eq] at hi
  rcases hi with hi | hi
  · exact h i hi
  · rw [← hi]; exact ⟨h1, h2⟩

/-- The pending set of a reachable state has members of the range only. -/
theorem reachable_inRange (c : Config) (hc : c.wf) (p : proc) (h : Reachable c p) :
    inRange c p.signal.sigpending := by
  induction h with
  | init p =>
    intro i hi
    have : (siginit c p).p.signal.sigpending = 0 := rfl
    rw [this, Nat.zero_testBit] at hi
    exact Bool.noConfusion hi
  | env p tf mm st _ ih => exact ih
  | sigaction p signo act oldact _ ih =>
    rw [(sys_sigaction_signal c p signo act oldact).1]
    exact ih
  | deliver p o _ ho ih =>
    rcases (do_signal_signal c p o ho).2 with e | e
    · rw [e]; exact ih
    · rw [e]; exact inRange_clear c _ _ ih
  | sigreturn p _ ih =>
    rw [(sys_sigreturn_signal c p).1]
    exact ih
  | sigkill pool pid signo code q _ hq ih =>
    rcases sys_sigkill_mem c pool pid signo code q hq with hm | ⟨t, n, ht, h1, h2, e⟩
    · exact ih q hm
    · rw [e, raise_on_pending]
      exact inRange_raise c hc _ n (ih t ht) h1 h2
  | exec p _ ih => exact ih
  | fork parent child _ ih =>
    intro i hi
    have : (siginit_fork c parent child).p.signal.sigpending = 0 := rfl
    rw [this, Nat.zero_testBit] at hi
    exact Bool.noConfusion hi

/-- C19: in every state reachable from `siginit` by `sys_sigkill`,
`do_signal`, `sys_sigaction`, `sys_sigreturn`, `siginit_exec` and
`siginit_fork`, the pending set has members of `[SIGMIN, SIGMAX]` only;
so, whenever a signal is deliverable, the loop of `do_signal` stops at a
deliverable `signo` with `SIGMIN ≤ signo ≤ SIGMAX`, never at `SIGMAX + 1`, and
`do_signal` stays inside `sa` and `siginfos` and gives a result. -/
theorem reachable_pending_in_range (c : Config) (hc : c.wf) (p : proc)
    (h : Reachable c p) :
    inRange c p.signal.sigpending ∧
    (deliverable p ≠ 0 →
      (c.SIGMIN ≤ selected c p ∧ selected c p ≤ c.SIGMAX) ∧
      selected c p ≠ c.SIGMAX + 1 ∧
      (deliverable p).testBit (selected c p) = true ∧
      ∃ o, do_signal c p = some o) := by
  have hr := reachable_inRange c hc p h
  refine ⟨hr, fun hd => ?_⟩
  obtain ⟨h1, h2, h3, _⟩ := selected_least c hc p hr hd
  obtain ⟨o, ho, _⟩ := do_signal_some c p hd h2
  exact ⟨⟨h1, h2⟩, by omega, h3, o, ho⟩

/-- Witness of C19 at the process `pRaised`: signal 3 was raised on the
process `pInit` and is deliverable. -/
theorem reachable_pending_in_range_witness :
    (cfg0.wf ∧ Reachable cfg0 pRaised ∧ deliverable pRaised ≠ 0) ∧
    inRange cfg0 pRaised.signal.sigpending ∧
    (deliverable pRaised ≠ 0 →
      (cfg0.SIGMIN ≤ selected cfg0 pRaised ∧ selected cfg0 pRaised ≤ cfg0.SIGMAX) ∧
      selected cfg0 pRaised ≠ cfg0.SIGMAX + 1 ∧
      (deliverable pRaised).testBit (selected cfg0 pRaised) = true ∧
      ∃ o, do_signal cfg0 pRaised = some o) :=
  have hreach : Reachable cfg0 pRaised :=
    Reachable.sigkill [pInit] 7 3 0 pRaised
      (fun p hp => by rw [List.mem_singleton.1 hp]; exact Reachable.init p0)
      (List.mem_singleton_self pRaised)
  ⟨⟨by decide, hreach, by decide⟩, reachable_pending_in_range cfg0 (by decide) pRaised hreach⟩

end KSignal
